import Mathlib

/-! The `pulls` command of github-rankings.

A shallow embedding of `cmd/pulls.go`: the date-range loop and the aggregation of
`pullsExecute`, the pagination loop of `getPullRequests` and the retrying
`getPullRequestReviews`.

* Remote calls, the clock and `time.Sleep` are operations of a `Remote` record acting on
  an explicit world state; every function also returns the list of `Event`s it caused.
* The two `for { ... }` loops are iterated by `loop`, which takes a bound on the number
  of iterations and answers `none` when the bound is reached.
* Go strings are Lean strings; the functions of the Go standard library that the
  command calls (`time.Parse`, `Time.Format`, `strings.Split`, `strings.ReplaceAll`,
  `sort.SliceStable`) are modelled by their documented behaviour.
-/

namespace GithubRankings

/-! ## Time -/

/-- Go `time.Time` as the command uses it: an instant in nanoseconds since the Unix
epoch, shown in UTC. -/
abbrev Time := Int

/-- Go `time.Duration`: a signed number of nanoseconds. -/
abbrev Duration := Int

/-- Go `time.Second`. -/
def second : Duration := 1000000000

/-- Go `time.Hour`. -/
def hour : Duration := 3600 * second

/-- The package variable `aDay = 1 * 24 * time.Hour`. -/
def aDay : Duration := 1 * 24 * hour

/-- Largest `time.Duration` (an `int64`). -/
def maxDuration : Duration := 2 ^ 63 - 1

/-- Smallest `time.Duration`. -/
def minDuration : Duration := -(2 ^ 63)

/-- Go `t.Sub(u)`: the difference `t - u`, saturated to the range of `Duration`. -/
def timeSub (t u : Time) : Duration :=
  if t - u > maxDuration then maxDuration
  else if t - u < minDuration then minDuration
  else t - u

/-- Go `time.Since(t)` read at clock value `now`: it is `now.Sub(t)`. -/
def timeSince (now t : Time) : Duration := timeSub now t

/-- Go `t.After(u)`. -/
def timeAfter (t u : Time) : Bool := decide (u < t)

/-- Go `t.Add(d)`. -/
def timeAdd (t : Time) (d : Duration) : Time := t + d

/-- Time actually spent in `time.Sleep(d)`: a negative or zero duration returns at once. -/
def sleepWait (d : Duration) : Duration := max d 0

/-! ## The proleptic Gregorian calendar -/

/-- Leap-year rule. -/
def isLeap (year : Int) : Bool :=
  decide (year % 4 = 0) && (decide (year % 100 ≠ 0) || decide (year % 400 = 0))

/-- Number of days of a month. -/
def daysIn (month year : Int) : Int :=
  if month = 2 then (if isLeap year then 29 else 28)
  else if month = 4 ∨ month = 6 ∨ month = 9 ∨ month = 11 then 30
  else 31

/-- Days from 1970-01-01 to the given civil date. -/
def daysFromCivil (year month day : Int) : Int :=
  let y := if month ≤ 2 then year - 1 else year
  let mp := if month > 2 then month - 3 else month + 9
  365 * y + y / 4 - y / 100 + y / 400 + (153 * mp + 2) / 5 + day - 1 - 719468

/-- Civil date (year, month, day) of a day number counted from 1970-01-01: cycles of
400, 100, 4 and 1 years counted from 0000-03-01, then the month inside the year. -/
def civilFromDays (z : Int) : Int × Int × Int :=
  let d := z + 719468
  let n400 := d / 146097
  let d1 := d - 146097 * n400
  let n100 := min (d1 / 36524) 3
  let d2 := d1 - 36524 * n100
  let n4 := d2 / 1461
  let d3 := d2 - 1461 * n4
  let n1 := min (d3 / 365) 3
  let doy := d3 - 365 * n1
  let y := 400 * n400 + 100 * n100 + 4 * n4 + n1
  let mp := (5 * doy + 2) / 153
  let day := doy - (153 * mp + 2) / 5 + 1
  let m := if mp < 10 then mp + 3 else mp - 9
  (if m ≤ 2 then y + 1 else y, m, day)

/-- ASCII digit test of Go's `time` package. -/
def isDigit (c : Char) : Bool := decide (48 ≤ c.toNat) && decide (c.toNat ≤ 57)

/-- Value of an ASCII digit. -/
def digitValue (c : Char) : Int := (c.toNat : Int) - 48

/-- The ASCII digit of `n % 10`. -/
def digitChar (n : Nat) : Char := Char.ofNat (48 + n % 10)

/-- Go `time.Parse("2006-01-02", value)`: four digits, `-`, two digits, `-`, two digits
and nothing else, the month in 1..12 and the day inside the month; the result is
midnight UTC of that date. `none` stands for the returned `*time.ParseError`. -/
def timeParse (value : String) : Option Time :=
  match value.data with
  | [y1, y2, y3, y4, s1, m1, m2, s2, d1, d2] =>
    if isDigit y1 && isDigit y2 && isDigit y3 && isDigit y4 && (s1 == '-')
        && isDigit m1 && isDigit m2 && (s2 == '-') && isDigit d1 && isDigit d2 then
      let year := 1000 * digitValue y1 + 100 * digitValue y2 + 10 * digitValue y3 + digitValue y4
      let month := 10 * digitValue m1 + digitValue m2
      let day := 10 * digitValue d1 + digitValue d2
      if month ≤ 0 ∨ 12 < month then none
      else if day < 1 ∨ daysIn month year < day then none
      else some (daysFromCivil year month day * aDay)
    else none
  | _ => none

/-- Go `appendInt` of the `time` package: decimal digits of `x`, zero-padded to `width`,
with a leading `-` for a negative number. -/
def appendInt (x : Int) (width : Nat) : List Char :=
  let u := x.natAbs
  let sign : List Char := if x < 0 then ['-'] else []
  if width = 2 ∧ u < 100 then sign ++ [digitChar (u / 10), digitChar u]
  else if width = 4 ∧ u < 10000 then
    sign ++ [digitChar (u / 1000), digitChar (u / 100), digitChar (u / 10), digitChar u]
  else sign ++ List.replicate (width - (Nat.toDigits 10 u).length) '0' ++ Nat.toDigits 10 u

/-- Go `t.Format("2006-01-02")` for a UTC time. -/
def timeFormat (t : Time) : String :=
  let c := civilFromDays (t / aDay)
  String.mk (appendInt c.1 4 ++ ['-'] ++ appendInt c.2.1 2 ++ ['-'] ++ appendInt c.2.2 2)

/-! ## Strings -/

/-- The rest of `s` after the leading `old`, when `s` starts with `old`. -/
def cutLeading : List Char → List Char → Option (List Char)
  | [], s => some s
  | _ :: _, [] => none
  | a :: old, b :: s => if a = b then cutLeading old s else none

/-- Scan of `strings.ReplaceAll` for a non-empty `old`: leftmost non-overlapping
occurrences are replaced; the first argument bounds the number of steps. -/
def replaceAllFrom (old new : List Char) : Nat → List Char → List Char
  | 0, s => s
  | _ + 1, [] => []
  | n + 1, c :: cs =>
    match cutLeading old (c :: cs) with
    | some rest => new ++ replaceAllFrom old new n rest
    | none => c :: replaceAllFrom old new n cs

/-- Go `strings.ReplaceAll(s, old, new)`. An empty `old` matches before every character
and at the end. -/
def replaceAll (s old new : String) : String :=
  if old.data = [] then String.mk (new.data ++ s.data.flatMap (fun c => c :: new.data))
  else String.mk (replaceAllFrom old.data new.data s.data.length s.data)

/-- Scan of `strings.Split` for a non-empty separator; `cur` is the piece being read. -/
def splitFrom (sep : List Char) : Nat → List Char → List Char → List (List Char)
  | 0, cur, s => [cur ++ s]
  | _ + 1, cur, [] => [cur]
  | n + 1, cur, c :: cs =>
    match cutLeading sep (c :: cs) with
    | some rest => cur :: splitFrom sep n [] rest
    | none => splitFrom sep n (cur ++ [c]) cs

/-- Go `strings.Split(s, sep)`. An empty separator splits after every character. -/
def stringsSplit (s sep : String) : List String :=
  if sep.data = [] then s.data.map (fun c => String.mk [c])
  else (splitFrom sep.data s.data.length [] s.data).map String.mk

/-- Go `strings.Join(elems, sep)`. -/
def stringsJoin (elems : List String) (sep : String) : String :=
  match elems with
  | [] => ""
  | e :: rest => rest.foldl (fun acc x => acc ++ sep ++ x) e

/-! ## Maps and sorting -/

/-- Read of a Go `map[string]int`: the zero value for a missing key. -/
def mapGet : List (String × Int) → String → Int
  | [], _ => 0
  | (k, v) :: rest, key => if k = key then v else mapGet rest key

/-- Write of a Go `map[string]int`; a new key goes to the end of the entry list. -/
def mapSet : List (String × Int) → String → Int → List (String × Int)
  | [], key, v => [(key, v)]
  | (k, w) :: rest, key, v => if k = key then (k, v) :: rest else (k, w) :: mapSet rest key v

/-- Go `m[key]++`. -/
def mapIncrement (m : List (String × Int)) (key : String) : List (String × Int) :=
  mapSet m key (mapGet m key + 1)

/-- The keys of a map, in the order in which they were first written. -/
def mapKeys (m : List (String × Int)) : List String := m.map Prod.fst

/-- The entry of a key, if the map has one. -/
def mapFind : List (String × Int) → String → Option Int
  | [], _ => none
  | (k, v) :: rest, key => if k = key then some v else mapFind rest key

/-- Go `set[key] = struct{}{}` on a `map[string]struct{}`. -/
def setAdd (s : List String) (key : String) : List String :=
  if key ∈ s then s else s ++ [key]

/-- Go `sort.SliceStable(xs, less)`: sorted so that no element is `less` than one
before it, elements that `less` does not separate keeping their order. -/
def sliceStable {α : Type} (less : α → α → Bool) (xs : List α) : List α :=
  xs.insertionSort (fun a b => less b a = false)

/-! ## Data model and the remote API -/

/-- The field of a `github.User` that the command reads: `Login`, a pointer that may be
nil. -/
structure User where
  login : Option String
deriving DecidableEq, Repr

/-- The fields of a `github.Issue` that the command reads. `User`, `RepositoryURL` and
`Number` are pointers: each may be nil, and the command dereferences them without a
check. -/
structure Issue where
  user : Option User
  repositoryURL : Option String
  number : Option Int
deriving DecidableEq, Repr

/-- The field of a `github.PullRequestReview` that the command reads: `User`, a pointer
that may be nil. -/
structure PullRequestReview where
  user : Option User
deriving DecidableEq, Repr

/-- The three shapes of error that the command tells apart: `*github.RateLimitError`
with its `Rate.Reset` time, `*github.AbuseRateLimitError` with its `RetryAfter`, and
any other error. -/
inductive ApiError where
  | rateLimit (reset : Time)
  | abuseRateLimit (retryAfter : Option Duration)
  | other (message : String)
deriving DecidableEq, Repr

/-- What `client.Search.Issues` gives on success: `ps.Issues` and `resp.NextPage`. -/
structure IssuesSearchResult where
  issues : List Issue
  nextPage : Int
deriving DecidableEq, Repr

/-- An observable action of the command: a remote request or a sleep. -/
inductive Event where
  | searchIssues (query : String) (page perPage : Int)
  | listReviews (org repo : String) (number perPage : Int)
  | sleep (d : Duration)
deriving DecidableEq, Repr

/-- The outside world as the command sees it: the two remote operations, the clock
read by `time.Since`, and `time.Sleep`, all acting on a world state `σ`. -/
structure Remote (σ : Type) where
  searchIssues : σ → String → Int → Int → Except ApiError IssuesSearchResult × σ
  listReviews : σ → String → String → Int → Int → Except ApiError (List PullRequestReview) × σ
  now : σ → Time
  sleep : σ → Duration → σ

/-! ## Loops -/

/-- Result of one pass through the body of a `for { ... }` loop. -/
inductive Step (S R : Type) where
  | next (s : S)
  | done (r : R)

/-- Run of a `for { ... }` loop: at most `fuel` passes through the body; `none` when the
loop has not left by then, or when the body itself does not return. -/
def loop {S R : Type} (body : S → Option (Step S R)) : Nat → S → Option R
  | 0, _ => none
  | n + 1, s =>
    match body s with
    | none => none
    | some (Step.next t) => loop body n t
    | some (Step.done r) => some r

/-- State after `k` passes through the body that all went on to a next pass. -/
def passes {S R : Type} (body : S → Option (Step S R)) : Nat → S → Option S
  | 0, s => some s
  | k + 1, s =>
    match body s with
    | some (Step.next t) => passes body k t
    | _ => none

/-! ## `getPullRequests` -/

/-- The query string built at the top of each pass of `getPullRequests`. -/
def searchQuery (org user dateQuery : String) : String :=
  let query := "NOT Snyk is:pr archived:false org:" ++ org
  let query := if dateQuery ≠ "" then query ++ " created:" ++ dateQuery else query
  if user ≠ "" then query ++ " author:" ++ user else query

/-- Local state of the loop of `getPullRequests`. -/
structure PageLoop (σ : Type) where
  world : σ
  page : Int
  pullRequests : List Issue
  events : List Event

/-- What `getPullRequests` returns, `(pullRequests, err)`, with the world it leaves and
the events it caused. -/
structure Fetched (σ : Type) where
  pullRequests : List Issue
  err : Option ApiError
  world : σ
  events : List Event

/-- One pass through the loop body of `getPullRequests`. -/
def getPullRequestsBody {σ : Type} (env : Remote σ) (org user dateQuery : String)
    (l : PageLoop σ) : Step (PageLoop σ) (Fetched σ) :=
  let query := searchQuery org user dateQuery
  let reply := env.searchIssues l.world query l.page 100
  let events := l.events ++ [Event.searchIssues query l.page 100]
  match reply.1 with
  | Except.error (ApiError.rateLimit reset) =>
    let diff := timeSince (env.now reply.2) reset
    Step.next ⟨env.sleep reply.2 diff, l.page, l.pullRequests, events ++ [Event.sleep diff]⟩
  | Except.error (ApiError.abuseRateLimit _) =>
    Step.next ⟨env.sleep reply.2 (30 * second), l.page, l.pullRequests,
      events ++ [Event.sleep (30 * second)]⟩
  | Except.error (ApiError.other m) =>
    Step.done ⟨l.pullRequests, some (ApiError.other m), reply.2, events⟩
  | Except.ok ps =>
    if ps.nextPage ≤ 0 then Step.done ⟨l.pullRequests ++ ps.issues, none, reply.2, events⟩
    else Step.next ⟨reply.2, ps.nextPage, l.pullRequests ++ ps.issues, events⟩

/-- Loop state at the entry of `getPullRequests`: `page := 1`, nothing collected. -/
def pageLoopStart {σ : Type} (w : σ) : PageLoop σ := ⟨w, 1, [], []⟩

/-- The function `getPullRequests(ctx, client, org, dateQuery)`; `user` is the package
variable set by the `--user` flag. -/
def getPullRequests {σ : Type} (env : Remote σ) (fuel : Nat) (org user dateQuery : String)
    (w : σ) : Option (Fetched σ) :=
  loop (fun l => some (getPullRequestsBody env org user dateQuery l)) fuel (pageLoopStart w)

/-! ## `getPullRequestReviews` -/

/-- What `getPullRequestReviews` returns, `(reviews, err)`, with world and events. -/
structure Reviewed (σ : Type) where
  reviews : List PullRequestReview
  err : Option ApiError
  world : σ
  events : List Event

/-- The function `getPullRequestReviews(ctx, client, org, repo, number)`, which calls
itself again after a rate-limit error; `fuel` bounds the depth of these calls. -/
def getPullRequestReviews {σ : Type} (env : Remote σ) :
    Nat → String → String → Int → σ → Option (Reviewed σ)
  | 0, _, _, _, _ => none
  | fuel + 1, org, repo, number, w =>
    let reply := env.listReviews w org repo number 100
    let request := Event.listReviews org repo number 100
    match reply.1 with
    | Except.error (ApiError.rateLimit reset) =>
      let diff := timeSince (env.now reply.2) reset
      (getPullRequestReviews env fuel org repo number (env.sleep reply.2 diff)).map
        (fun r => ⟨r.reviews, r.err, r.world, request :: Event.sleep diff :: r.events⟩)
    | Except.error (ApiError.abuseRateLimit _) =>
      (getPullRequestReviews env fuel org repo number (env.sleep reply.2 (30 * second))).map
        (fun r => ⟨r.reviews, r.err, r.world, request :: Event.sleep (30 * second) :: r.events⟩)
    | Except.error (ApiError.other m) => some ⟨[], some (ApiError.other m), reply.2, [request]⟩
    | Except.ok reviews => some ⟨reviews, none, reply.2, [request]⟩

/-! ## `pullsExecute` -/

/-- Local state of the date loop of `pullsExecute`; `calls` lists the `dateQuery`
arguments with which `getPullRequests` has been called so far. -/
structure DateLoop (σ : Type) where
  world : σ
  dateFrom : Time
  controlProcessedDate : List String
  pullRequests : List Issue
  calls : List String
  events : List Event

/-- State of `pullsExecute` after the retrieval part: the issues collected, the error
of the failed call if there was one, the `dateQuery` arguments of the calls made. -/
structure Collected (σ : Type) where
  pullRequests : List Issue
  err : Option ApiError
  world : σ
  calls : List String
  events : List Event

/-- One pass through the body of the date loop, with `getPR` for the call
`getPullRequests(ctx, client, org, dateQuery)`. -/
def dateLoopBody {σ : Type} (getPR : String → σ → Option (Fetched σ)) (dateTo : Time)
    (l : DateLoop σ) : Option (Step (DateLoop σ) (Collected σ)) :=
  if timeAfter l.dateFrom dateTo then
    some (Step.done ⟨l.pullRequests, none, l.world, l.calls, l.events⟩)
  else
    let dateQuery := timeFormat l.dateFrom
    if dateQuery ∈ l.controlProcessedDate then some (Step.next l)
    else
      match getPR dateQuery l.world with
      | none => none
      | some r =>
        match r.err with
        | some e =>
          some (Step.done ⟨l.pullRequests, some e, r.world, l.calls ++ [dateQuery],
            l.events ++ r.events⟩)
        | none =>
          some (Step.next ⟨r.world, timeAdd l.dateFrom aDay,
            setAdd l.controlProcessedDate dateQuery, l.pullRequests ++ r.pullRequests,
            l.calls ++ [dateQuery], l.events ++ r.events⟩)

/-- Loop state at the entry of the date loop. -/
def dateLoopStart {σ : Type} (w : σ) (dateFrom : Time) : DateLoop σ :=
  ⟨w, dateFrom, [], [], [], []⟩

/-- The date loop of `pullsExecute`, from `dateFrom` to `dateTo`. -/
def dateLoop {σ : Type} (getPR : String → σ → Option (Fetched σ)) (fuel : Nat)
    (dateFrom dateTo : Time) (w : σ) : Option (Collected σ) :=
  loop (dateLoopBody getPR dateTo) fuel (dateLoopStart w dateFrom)

/-- How the retrieval part of `pullsExecute` ends: with a parse error, with the runtime
panic of an index out of range, or with the state it hands to the aggregation. -/
inductive Retrieved (σ : Type) where
  | parseError (value : String)
  | panic
  | collected (c : Collected σ)

/-- The retrieval part of `pullsExecute`: the date range is split and parsed and the
date loop run, or one query without a date is made. -/
def retrieve {σ : Type} (env : Remote σ) (fuel : Nat) (org user dateRange : String)
    (w : σ) : Option (Retrieved σ) :=
  if dateRange ≠ "" then
    let dateRangeSplit := stringsSplit dateRange ".."
    match dateRangeSplit[0]? with
    | none => some Retrieved.panic
    | some first =>
      match timeParse first with
      | none => some (Retrieved.parseError first)
      | some dateFrom =>
        match dateRangeSplit[1]? with
        | none => some Retrieved.panic
        | some second =>
          match timeParse second with
          | none => some (Retrieved.parseError second)
          | some dateTo =>
            (dateLoop (getPullRequests env fuel org user) fuel dateFrom dateTo w).map
              Retrieved.collected
  else
    (getPullRequests env fuel org user "" w).map
      (fun r => Retrieved.collected ⟨r.pullRequests, r.err, r.world, [""], r.events⟩)

/-- The two maps filled by the aggregation loop. -/
structure Tally where
  userPullRequestsCount : List (String × Int)
  relatedRepos : List String
deriving DecidableEq, Repr

/-- How the aggregation loop ends: it runs to its end, `pullsExecute` returns the error of
a review call from inside it, or a nil pointer is dereferenced and the program panics. -/
inductive Ending where
  | finished
  | failed (e : ApiError)
  | panicked
deriving DecidableEq, Repr

/-- State when the aggregation loop ends. -/
structure Aggregated (σ : Type) where
  tally : Tally
  ending : Ending
  world : σ
  events : List Event

/-- The text `"https://api.github.com/repos/"+org+"/"` that the aggregation loop takes
out of a repository URL. -/
def repoLead (org : String) : String := "https://api.github.com/repos/" ++ org ++ "/"

/-- The repository name that the aggregation loop derives from a repository URL. -/
def repoOf (org repositoryURL : String) : String :=
  replaceAll repositoryURL (repoLead org) ""

/-- The map updates of one pass of the aggregation loop for an issue whose author login
is `login` and whose repository URL is `url`: the count of the login goes up by one and
the repository joins the set. -/
def countIssue (org : String) (t : Tally) (login url : String) : Tally :=
  ⟨mapIncrement t.userPullRequestsCount login, setAdd t.relatedRepos (repoOf org url)⟩

/-- The loop `for _, review := range reviews` inside the aggregation loop: the logins it
logs, or `none` when it dereferences the nil `User` of a review and panics. -/
def reviewLoop : List PullRequestReview → Option (List String)
  | [] => some []
  | review :: rest =>
    match review.user with
    | none => none
    | some u =>
      match u.login with
      | some login => (reviewLoop rest).map (fun logged => login :: logged)
      | none => reviewLoop rest

/-- The aggregation loop `for _, p := range pullRequests` of `pullsExecute`. The reads
`p.User.Login`, `*p.RepositoryURL` and `*p.Number` panic on a nil pointer. -/
def aggregate {σ : Type} (env : Remote σ) (fuel : Nat) (org : String) (includeReviews : Bool) :
    List Issue → Tally → σ → List Event → Option (Aggregated σ)
  | [], t, w, ev => some ⟨t, Ending.finished, w, ev⟩
  | p :: rest, t, w, ev =>
    match p.user with
    | none => some ⟨t, Ending.panicked, w, ev⟩
    | some u =>
      match u.login with
      | none => aggregate env fuel org includeReviews rest t w ev
      | some login =>
        match p.repositoryURL with
        | none =>
          some ⟨⟨mapIncrement t.userPullRequestsCount login, t.relatedRepos⟩, Ending.panicked,
            w, ev⟩
        | some url =>
          if includeReviews then
            match p.number with
            | none => some ⟨countIssue org t login url, Ending.panicked, w, ev⟩
            | some number =>
              match getPullRequestReviews env fuel org (repoOf org url) number w with
              | none => none
              | some r =>
                match r.err with
                | some e =>
                  some ⟨countIssue org t login url, Ending.failed e, r.world, ev ++ r.events⟩
                | none =>
                  match reviewLoop r.reviews with
                  | none =>
                    some ⟨countIssue org t login url, Ending.panicked, r.world,
                      ev ++ r.events⟩
                  | some _ =>
                    aggregate env fuel org includeReviews rest (countIssue org t login url)
                      r.world (ev ++ r.events)
          else aggregate env fuel org includeReviews rest (countIssue org t login url) w ev

/-- The list `users` after `sort.SliceStable`, for the keys `users` in the order in
which the `range` over the count map produced them. -/
def rankUsers (counts : List (String × Int)) (users : List String) : List String :=
  sliceStable (fun a b => decide (mapGet counts a > mapGet counts b)) users

/-- The text `markdownRanking` built from the sorted users. -/
def markdownRanking (counts : List (String × Int)) (users : List String) : String :=
  users.foldl
    (fun acc user => acc ++ "\n| " ++ user ++ " | " ++ toString (mapGet counts user) ++ " |")
    "| user | count |\n| ---- | ----- |"

/-- What `pullsExecute` logs at its end. -/
structure Report where
  users : List String
  userPullRequestsCount : List (String × Int)
  markdownRanking : String
  repos : List String
  relatedRepos : String
deriving DecidableEq, Repr

/-- The error value returned by `pullsExecute`. -/
inductive Failure where
  | parse (value : String)
  | api (e : ApiError)
deriving DecidableEq, Repr

/-- How a run of `pullsExecute` ends: it returns nil after logging the report, it
returns an error, or it panics. -/
inductive Status where
  | finished (report : Report)
  | failed (err : Failure)
  | panicked
deriving DecidableEq, Repr

/-- A finished run of `pullsExecute`. -/
structure Run (σ : Type) where
  status : Status
  world : σ
  events : List Event

/-- The command `pullsExecute`. `org`, `user`, `dateRange` and `includeReviews` are the
package variables set by the flags; `userOrder` and `repoOrder` give the order in which
the `range` over each map yields its keys, which Go leaves unspecified. -/
def pullsExecute {σ : Type} (env : Remote σ) (userOrder repoOrder : List String → List String)
    (fuel : Nat) (org user dateRange : String) (includeReviews : Bool) (w : σ) :
    Option (Run σ) :=
  match retrieve env fuel org user dateRange w with
  | none => none
  | some (Retrieved.parseError value) => some ⟨Status.failed (Failure.parse value), w, []⟩
  | some Retrieved.panic => some ⟨Status.panicked, w, []⟩
  | some (Retrieved.collected c) =>
    match c.err with
    | some e => some ⟨Status.failed (Failure.api e), c.world, c.events⟩
    | none =>
      match aggregate env fuel org includeReviews c.pullRequests ⟨[], []⟩ c.world c.events with
      | none => none
      | some a =>
        match a.ending with
        | Ending.failed e => some ⟨Status.failed (Failure.api e), a.world, a.events⟩
        | Ending.panicked => some ⟨Status.panicked, a.world, a.events⟩
        | Ending.finished =>
          let users := rankUsers a.tally.userPullRequestsCount
            (userOrder (mapKeys a.tally.userPullRequestsCount))
          let repos := repoOrder a.tally.relatedRepos
          some ⟨Status.finished ⟨users, a.tally.userPullRequestsCount,
            markdownRanking a.tally.userPullRequestsCount users, repos,
            stringsJoin repos "\n"⟩, a.world, a.events⟩

/-! ## Simulated remotes -/

/-- World of a scripted remote: the replies still to be given to search requests, in
order, and the clock. -/
structure ScriptWorld where
  replies : List (Except ApiError IssuesSearchResult)
  clock : Time

/-- A remote that answers the search requests from a script, one reply per request,
whatever is asked; a sleep moves the clock. Reviews are always empty. -/
def scriptRemote : Remote ScriptWorld where
  searchIssues w _ _ _ :=
    match w.replies with
    | [] => (Except.error (ApiError.other "no scripted reply left"), w)
    | r :: rest => (r, ⟨rest, w.clock⟩)
  listReviews w _ _ _ _ := (Except.ok [], w)
  now w := w.clock
  sleep w d := ⟨w.replies, w.clock + sleepWait d⟩

/-- A remote with `pages.length` pages of results: page `k` is answered with the `k`-th
list and the next-page indicator `k + 1`, the last page with the indicator `0`; any
other page is an error. The world counts the requests. -/
def pagedRemote (pages : List (List Issue)) : Remote Nat where
  searchIssues w _ page _ :=
    if 1 ≤ page ∧ page ≤ pages.length then
      (Except.ok ⟨pages.getD (page.toNat - 1) [], if page < pages.length then page + 1 else 0⟩,
        w + 1)
    else (Except.error (ApiError.other "no such page"), w + 1)
  listReviews w _ _ _ _ := (Except.ok [], w + 1)
  now _ := 0
  sleep w _ := w

/-- Whether a reply is one of the two failures after which the request is repeated. -/
def isRetry : Except ApiError IssuesSearchResult → Bool
  | Except.error (ApiError.rateLimit _) => true
  | Except.error (ApiError.abuseRateLimit _) => true
  | _ => false

/-- The pages asked for by the search requests among the events, in order. -/
def requestedPages : List Event → List Int
  | [] => []
  | Event.searchIssues _ page _ :: rest => page :: requestedPages rest
  | _ :: rest => requestedPages rest

/-! ## Words of the specification -/

/-- The author login of an issue, when it has a user with a login. -/
def authorLogin (p : Issue) : Option String :=
  match p.user with
  | none => none
  | some u => u.login

/-- The author logins of the issues that have one, in the order of the issues. -/
def authors (issues : List Issue) : List String := issues.filterMap authorLogin

/-- An issue on which the aggregation loop dereferences no nil pointer: it has a `User`
and, when that user has a login, a `RepositoryURL` and, if reviews are fetched, a
`Number`. -/
def soundIssue (includeReviews : Bool) (p : Issue) : Bool :=
  match p.user with
  | none => false
  | some u =>
    match u.login with
    | none => true
    | some _ => p.repositoryURL.isSome && (!includeReviews || p.number.isSome)

/-- The two maps after the aggregation loop has gone through all of `issues`, each of
them sound. -/
def tallyOf (org : String) : List Issue → Tally → Tally
  | [], t => t
  | p :: rest, t =>
    match authorLogin p with
    | none => tallyOf org rest t
    | some login =>
      match p.repositoryURL with
      | none => tallyOf org rest t
      | some url => tallyOf org rest (countIssue org t login url)

/-- The instants `dateFrom`, `dateFrom + aDay`, ... that are not after `dateTo`. -/
def daysBetween (dateFrom dateTo : Time) : List Time :=
  (List.range ((dateTo - dateFrom) / aDay + 1).toNat).map
    (fun (i : Nat) => dateFrom + (i : Int) * aDay)

/-! ## Concrete inputs -/

/-- Four issues of organization `acme`: by alice, by bob, by alice again, and one whose
user has a nil login. -/
def exampleIssues : List Issue :=
  [⟨some ⟨some "alice"⟩, some "https://api.github.com/repos/acme/repoA", some 1⟩,
   ⟨some ⟨some "bob"⟩, some "https://api.github.com/repos/acme/repoB", some 2⟩,
   ⟨some ⟨some "alice"⟩, some "https://api.github.com/repos/acme/repoA", some 3⟩,
   ⟨some ⟨none⟩, some "https://api.github.com/repos/acme/repoC", some 4⟩]

/-- Four issues of organization `acme`: by alice, by bob, by alice again, and one whose
user is nil, as decoded from `"user": null`. -/
def nullUserIssues : List Issue :=
  [⟨some ⟨some "alice"⟩, some "https://api.github.com/repos/acme/repoA", some 1⟩,
   ⟨some ⟨some "bob"⟩, some "https://api.github.com/repos/acme/repoB", some 2⟩,
   ⟨some ⟨some "alice"⟩, some "https://api.github.com/repos/acme/repoA", some 3⟩,
   ⟨none, some "https://api.github.com/repos/acme/repoC", some 4⟩]

/-- A scripted world with no reply left and the clock at zero. -/
def idleWorld : ScriptWorld := ⟨[], 0⟩

/-- One issue by alice and one by bob. -/
def twoAuthors : List Issue :=
  [⟨some ⟨some "alice"⟩, some "https://api.github.com/repos/acme/repoA", some 1⟩,
   ⟨some ⟨some "bob"⟩, some "https://api.github.com/repos/acme/repoB", some 2⟩]

/-- The logins of a list without repetition, in the order of their first occurrence. -/
def firstSeen : List String → List String
  | [] => []
  | a :: rest => a :: (firstSeen rest).filter (fun b => decide (b ≠ a))

/-- The elements of `users` that have the same count stand in the order in which they
stand in `reference`. -/
def TiesFollow (count : String → Int) (reference users : List String) : Prop :=
  ∀ n : Int, users.filter (fun u => decide (count u = n)) =
    reference.filter (fun u => decide (count u = n))

/-- Three pages of results: one issue, two issues, no issue. -/
def threePages : List (List Issue) :=
  [[⟨some ⟨some "alice"⟩, some "https://api.github.com/repos/acme/repoA", some 1⟩],
   [⟨some ⟨some "bob"⟩, some "https://api.github.com/repos/acme/repoB", some 2⟩,
    ⟨some ⟨none⟩, some "https://api.github.com/repos/acme/repoC", some 4⟩],
   []]

/-- The events of one pass through a loop body of `getPullRequests`: those of the next
loop state or of the returned value. -/
def passEvents {σ : Type} : Step (PageLoop σ) (Fetched σ) → List Event
  | Step.next l => l.events
  | Step.done r => r.events

/-- A scripted run: a primary rate limit, page 1, an abuse rate limit and a primary rate
limit, then page 2, the last one. -/
def bumpyScript : List (Except ApiError IssuesSearchResult) :=
  [Except.error (ApiError.rateLimit 90000000000),
   Except.ok ⟨[⟨some ⟨some "alice"⟩, some "https://api.github.com/repos/acme/repoA", some 1⟩], 2⟩,
   Except.error (ApiError.abuseRateLimit (some 60000000000)),
   Except.error (ApiError.rateLimit 10000000000),
   Except.ok ⟨[⟨some ⟨some "bob"⟩, some "https://api.github.com/repos/acme/repoB", some 2⟩], 0⟩]

/-- A scripted run: page 1 with one issue and a next page, then an error that is not a
rate limit. -/
def fatalScript : List (Except ApiError IssuesSearchResult) :=
  [Except.ok ⟨[⟨some ⟨some "alice"⟩, some "https://api.github.com/repos/acme/repoA", some 1⟩], 2⟩,
   Except.error (ApiError.other "boom")]

/-- The loop state of `getPullRequests` after the first reply of `fatalScript`. -/
def fatalState (dateQuery : String) : PageLoop ScriptWorld :=
  ⟨⟨[Except.error (ApiError.other "boom")], 0⟩, 2,
    [⟨some ⟨some "alice"⟩, some "https://api.github.com/repos/acme/repoA", some 1⟩],
    [Event.searchIssues (searchQuery "acme" "" dateQuery) 1 100]⟩

/-- World of a remote whose review requests are answered from a script. -/
structure ReviewWorld where
  replies : List (Except ApiError (List PullRequestReview))
  clock : Time

/-- A remote that answers the review requests from a script, one reply per request; a
sleep moves the clock. -/
def reviewRemote : Remote ReviewWorld where
  searchIssues w _ _ _ := (Except.ok ⟨[], 0⟩, w)
  listReviews w _ _ _ _ :=
    match w.replies with
    | [] => (Except.ok [], w)
    | r :: rest => (r, ⟨rest, w.clock⟩)
  now w := w.clock
  sleep w d := ⟨w.replies, w.clock + sleepWait d⟩

/-- One page holding one issue. -/
def onePage : List (List Issue) :=
  [[⟨some ⟨some "alice"⟩, some "https://api.github.com/repos/acme/repoA", some 1⟩]]

/-- A state of the date loop in which the cursor is 2024-01-01 and that date is already
in the set of processed dates. -/
def revisitState : DateLoop ScriptWorld :=
  ⟨idleWorld, 19723 * aDay, ["2024-01-01"], [], ["2024-01-01"], []⟩

/-- The sorted users of the report, when the run has finished with one. -/
def rankedUsers : Status → Option (List String)
  | Status.finished report => some report.users
  | _ => none

/-- The state of the date loop for the range 2024-02-28..2024-03-01 against a remote
with the single page `onePage`, after the pass for 2024-02-28. -/
def secondDayState : DateLoop Nat :=
  ⟨1, 19782 * aDay, ["2024-02-28"],
    [⟨some ⟨some "alice"⟩, some "https://api.github.com/repos/acme/repoA", some 1⟩],
    ["2024-02-28"], [Event.searchIssues (searchQuery "acme" "" "2024-02-28") 1 100]⟩

/-! ## Maps -/

theorem mapGet_eq_getD (m : List (String × Int)) (k : String) :
    mapGet m k = (mapFind m k).getD 0 := by
  induction m with
  | nil => rfl
  | cons e rest ih =>
    obtain ⟨a, v⟩ := e
    simp only [mapGet, mapFind]
    split_ifs <;> simp [ih]

theorem mapFind_mapSet (m : List (String × Int)) (k u : String) (v : Int) :
    mapFind (mapSet m k v) u = if u = k then some v else mapFind m u := by
  induction m with
  | nil =>
    simp only [mapSet, mapFind]
    by_cases h : k = u
    · simp [h]
    · have h2 : ¬ u = k := fun e => h e.symm
      simp [h, h2]
  | cons e rest ih =>
    obtain ⟨a, w⟩ := e
    simp only [mapSet]
    by_cases hak : a = k
    · subst hak
      simp only [if_true, mapFind]
      by_cases hu : a = u
      · simp [hu]
      · have h2 : ¬ u = a := fun e => hu e.symm
        simp [hu, h2]
    · simp only [hak, if_false, mapFind, ih]
      by_cases hu : a = u
      · have h2 : ¬ u = k := fun e => hak (hu.trans e)
        simp [hu, h2]
      · simp [hu]

theorem mapKeys_mapSet (m : List (String × Int)) (k : String) (v : Int) :
    mapKeys (mapSet m k v) = if k ∈ mapKeys m then mapKeys m else mapKeys m ++ [k] := by
  induction m with
  | nil => simp [mapSet, mapKeys]
  | cons e rest ih =>
    obtain ⟨a, w⟩ := e
    simp only [mapKeys] at ih ⊢
    simp only [mapSet]
    by_cases hak : a = k
    · subst hak; simp
    · have h2 : ¬ k = a := fun e => hak e.symm
      simp only [hak, if_false, List.map_cons, ih, List.mem_cons, h2, false_or]
      split_ifs <;> simp

theorem mem_mapKeys_iff (m : List (String × Int)) (k : String) :
    k ∈ mapKeys m ↔ mapFind m k ≠ none := by
  induction m with
  | nil => simp [mapKeys, mapFind]
  | cons e rest ih =>
    obtain ⟨a, w⟩ := e
    simp only [mapKeys] at ih ⊢
    simp only [List.map_cons, List.mem_cons, mapFind]
    by_cases hak : a = k
    · simp [hak]
    · have h2 : ¬ k = a := fun e => hak e.symm
      simp [hak, h2, ih]

theorem nodup_mapKeys_mapSet (m : List (String × Int)) (k : String) (v : Int)
    (h : (mapKeys m).Nodup) : (mapKeys (mapSet m k v)).Nodup := by
  rw [mapKeys_mapSet]
  split_ifs with hk
  · exact h
  · exact List.Nodup.append h (List.nodup_singleton k) (by simpa using hk)

/-! ## The aggregation loop -/

theorem getPullRequestReviews_ok {σ : Type} (env : Remote σ) (fuel : Nat) (org repo : String)
    (number : Int) (w : σ) (rs : List PullRequestReview)
    (h : (env.listReviews w org repo number 100).1 = Except.ok rs) :
    getPullRequestReviews env (fuel + 1) org repo number w =
      some ⟨rs, none, (env.listReviews w org repo number 100).2,
        [Event.listReviews org repo number 100]⟩ := by
  simp only [getPullRequestReviews, h]

theorem reviewLoop_sound (rs : List PullRequestReview) (h : ∀ r ∈ rs, r.user ≠ none) :
    ∃ logged, reviewLoop rs = some logged := by
  induction rs with
  | nil => exact ⟨[], rfl⟩
  | cons r rest ih =>
    obtain ⟨logged, hl⟩ := ih (fun x hx => h x (List.mem_cons_of_mem _ hx))
    cases hu : r.user with
    | none => exact absurd hu (h r (List.mem_cons_self _ _))
    | some u =>
      cases hlog : u.login with
      | none => exact ⟨logged, by simp only [reviewLoop, hu, hlog, hl]⟩
      | some login => exact ⟨login :: logged, by simp only [reviewLoop, hu, hlog, hl]; rfl⟩

theorem aggregate_tally {σ : Type} (env : Remote σ) (fuel : Nat) (org : String)
    (includeReviews : Bool) (hfuel : 1 ≤ fuel)
    (hrev : includeReviews = true → ∀ (w : σ) (repo : String) (number : Int),
      ∃ rs, (env.listReviews w org repo number 100).1 = Except.ok rs ∧ ∀ r ∈ rs, r.user ≠ none)
    (issues : List Issue) (hsound : ∀ p ∈ issues, soundIssue includeReviews p = true) :
    ∀ (t : Tally) (w : σ) (ev : List Event),
    ∃ a, aggregate env fuel org includeReviews issues t w ev = some a ∧
      a.ending = Ending.finished ∧ a.tally = tallyOf org issues t := by
  obtain ⟨n, rfl⟩ : ∃ n, fuel = n + 1 := ⟨fuel - 1, by omega⟩
  induction issues with
  | nil => intro t w ev; exact ⟨_, rfl, rfl, rfl⟩
  | cons p rest ih =>
    intro t w ev
    have hp := hsound p (List.mem_cons_self _ _)
    have ih' := ih (fun x hx => hsound x (List.mem_cons_of_mem _ hx))
    cases hu : p.user with
    | none => simp [soundIssue, hu] at hp
    | some u =>
      cases hl : u.login with
      | none =>
        obtain ⟨a, h1, h2, h3⟩ := ih' t w ev
        refine ⟨a, ?_, h2, ?_⟩
        · simp only [aggregate, hu, hl, h1]
        · simp only [tallyOf, authorLogin, hu, hl, h3]
      | some login =>
        cases hurl : p.repositoryURL with
        | none => simp [soundIssue, hu, hl, hurl] at hp
        | some url =>
          cases hi : includeReviews with
          | false =>
            subst hi
            obtain ⟨a, h1, h2, h3⟩ := ih' (countIssue org t login url) w ev
            refine ⟨a, ?_, h2, ?_⟩
            · simp only [aggregate, hu, hl, hurl, h1]; rfl
            · simp only [tallyOf, authorLogin, hu, hl, hurl, h3]
          | true =>
            subst hi
            cases hn : p.number with
            | none => simp [soundIssue, hu, hl, hurl, hn] at hp
            | some number =>
              obtain ⟨rs, hrs, hrsu⟩ := hrev rfl w (repoOf org url) number
              obtain ⟨logged, hlogged⟩ := reviewLoop_sound rs hrsu
              obtain ⟨a, h1, h2, h3⟩ := ih' (countIssue org t login url)
                (env.listReviews w org (repoOf org url) number 100).2
                (ev ++ [Event.listReviews org (repoOf org url) number 100])
              refine ⟨a, ?_, h2, ?_⟩
              · simp only [aggregate, hu, hl, hurl, hn,
                  getPullRequestReviews_ok env n org _ _ w rs hrs, hlogged, h1]
                rfl
              · simp only [tallyOf, authorLogin, hu, hl, hurl, h3]

theorem aggregate_filter {σ : Type} (env : Remote σ) (fuel : Nat) (org : String)
    (includeReviews : Bool) (issues : List Issue) : ∀ (t : Tally) (w : σ) (ev : List Event),
    aggregate env fuel org includeReviews
        (issues.filter (fun p => decide (p.user ≠ some ⟨none⟩))) t w ev =
      aggregate env fuel org includeReviews issues t w ev := by
  induction issues with
  | nil => intro t w ev; rfl
  | cons p rest ih =>
    intro t w ev
    cases hu : p.user with
    | none =>
      have hne : p.user ≠ some ⟨none⟩ := by rw [hu]; exact fun h => by cases h
      rw [List.filter_cons_of_pos (by simpa using hne)]
      simp only [aggregate, hu]
    | some u =>
      cases hl : u.login with
      | none =>
        have hu' : p.user = some ⟨none⟩ := by rw [hu]; cases u; simp_all
        rw [List.filter_cons_of_neg (by simpa using hu')]
        simp only [aggregate, hu, hl]
        exact ih t w ev
      | some login =>
        have hne : p.user ≠ some ⟨none⟩ := by
          rw [hu]; intro h; cases u; simp_all
        rw [List.filter_cons_of_pos (by simpa using hne)]
        simp only [aggregate, hu, hl, ih]

theorem tallyOf_counts (org : String) (includeReviews : Bool) (issues : List Issue)
    (hsound : ∀ p ∈ issues, soundIssue includeReviews p = true) : ∀ (t : Tally) (u : String),
    mapFind (tallyOf org issues t).userPullRequestsCount u =
      if (authors issues).count u = 0 then mapFind t.userPullRequestsCount u
      else some (mapGet t.userPullRequestsCount u + ((authors issues).count u : Int)) := by
  induction issues with
  | nil => intro t u; simp [tallyOf, authors]
  | cons p rest ih =>
    intro t u
    have hp := hsound p (List.mem_cons_self _ _)
    have ih' := ih (fun x hx => hsound x (List.mem_cons_of_mem _ hx))
    cases hl : authorLogin p with
    | none =>
      have ha : authors (p :: rest) = authors rest := by simp [authors, List.filterMap_cons, hl]
      simp only [tallyOf, hl, ha, ih']
    | some login =>
      have ha : authors (p :: rest) = login :: authors rest := by
        simp [authors, List.filterMap_cons, hl]
      cases hurl : p.repositoryURL with
      | none =>
        cases hu : p.user with
        | none => simp [authorLogin, hu] at hl
        | some usr =>
          simp only [authorLogin, hu] at hl
          simp [soundIssue, hu, hl, hurl] at hp
      | some url =>
        simp only [tallyOf, hl, hurl, ha, ih', countIssue, mapIncrement, mapFind_mapSet,
          mapGet_eq_getD, List.count_cons]
        by_cases hu : u = login
        · subst hu
          simp only [if_true, beq_self_eq_true, Option.getD_some]
          by_cases h0 : List.count u (authors rest) = 0
          · simp [h0]
          · simp only [h0, if_false, Nat.add_eq_zero, one_ne_zero, and_false]
            push_cast; congr 1; omega
        · have h2 : (login == u) = false := by
            simpa using fun e : login = u => hu e.symm
          simp [hu, h2]

theorem tallyOf_nodup (org : String) (issues : List Issue) : ∀ t : Tally,
    (mapKeys t.userPullRequestsCount).Nodup →
    (mapKeys (tallyOf org issues t).userPullRequestsCount).Nodup := by
  induction issues with
  | nil => intro t h; exact h
  | cons p rest ih =>
    intro t h
    cases hl : authorLogin p with
    | none => simp only [tallyOf, hl]; exact ih t h
    | some login =>
      cases hurl : p.repositoryURL with
      | none => simp only [tallyOf, hl, hurl]; exact ih t h
      | some url =>
        simp only [tallyOf, hl, hurl]
        exact ih _ (nodup_mapKeys_mapSet _ _ _ h)

theorem aggregate_counts {σ : Type} (env : Remote σ) (fuel : Nat) (org : String)
    (includeReviews : Bool) (issues : List Issue) (w : σ) (ev : List Event) (hfuel : 1 ≤ fuel)
    (hrev : includeReviews = true → ∀ (w : σ) (repo : String) (number : Int),
      ∃ rs, (env.listReviews w org repo number 100).1 = Except.ok rs ∧ ∀ r ∈ rs, r.user ≠ none)
    (hsound : ∀ p ∈ issues, soundIssue includeReviews p = true) :
    ∃ a, aggregate env fuel org includeReviews issues ⟨[], []⟩ w ev = some a ∧
      a.ending = Ending.finished ∧
      (∀ u, mapFind a.tally.userPullRequestsCount u =
        if (authors issues).count u = 0 then none else some ((authors issues).count u : Int)) ∧
      (mapKeys a.tally.userPullRequestsCount).Nodup ∧
      aggregate env fuel org includeReviews
        (issues.filter (fun p => decide (p.user ≠ some ⟨none⟩))) ⟨[], []⟩ w ev = some a := by
  obtain ⟨a, h1, h2, h3⟩ := aggregate_tally env fuel org includeReviews hfuel hrev issues hsound
    ⟨[], []⟩ w ev
  refine ⟨a, h1, h2, ?_, ?_, ?_⟩
  · intro u
    rw [h3, tallyOf_counts org includeReviews issues hsound]
    split_ifs with h0
    · rfl
    · simp [mapGet]
  · rw [h3]
    exact tallyOf_nodup org issues _ (by simp [mapKeys])
  · rw [aggregate_filter]; exact h1

/-- C4 fails on the code: for the issues by alice, bob, alice and one decoded from
`"user": null`, whose `User` pointer is nil, the aggregation loop does not skip the last
record but panics on `p.User.Login`, and `pullsExecute` ends in that panic with no
report; when the fourth issue has a user whose login is nil, the loop runs to its end
with exactly alice: 2 and bob: 1 and the repositories of the first three issues. -/
theorem null_user_panics :
    (aggregate scriptRemote 1 "acme" false nullUserIssues ⟨[], []⟩ idleWorld []).map
      (fun a => a.ending) = some Ending.panicked ∧
    (pullsExecute (pagedRemote [nullUserIssues]) id id 1 "acme" "" "" false 0).map
      (fun r => r.status) = some Status.panicked ∧
    (aggregate scriptRemote 1 "acme" false exampleIssues ⟨[], []⟩ idleWorld []).map
      (fun a => (a.ending, a.tally)) =
      some (Ending.finished, ⟨[("alice", 2), ("bob", 1)], ["repoA", "repoB"]⟩) := by
  decide

/-! ## Repository names -/

theorem cutLeading_append (old rest : List Char) : cutLeading old (old ++ rest) = some rest := by
  induction old with
  | nil => rfl
  | cons a old ih => simp [cutLeading, ih]

theorem cutLeading_eq_some (old s rest : List Char) (h : cutLeading old s = some rest) :
    s = old ++ rest := by
  induction old generalizing s with
  | nil => simp [cutLeading] at h; simp [h]
  | cons a old ih =>
    cases s with
    | nil => simp [cutLeading] at h
    | cons b s =>
      simp only [cutLeading] at h
      split_ifs at h with hab
      subst hab
      simp [ih s h]

theorem replaceAllFrom_of_not_infix (old new : List Char) (n : Nat) :
    ∀ s : List Char, ¬ old <:+: s → replaceAllFrom old new n s = s := by
  induction n with
  | zero => intro s _; cases s <;> rfl
  | succ n ih =>
    intro s hs
    cases s with
    | nil => rfl
    | cons c cs =>
      have hcut : cutLeading old (c :: cs) = none := by
        cases hc : cutLeading old (c :: cs) with
        | none => rfl
        | some rest =>
          exact absurd ⟨[], rest, by simp [cutLeading_eq_some old _ rest hc]⟩ hs
      have hcs : ¬ old <:+: cs := fun h => hs (h.trans (List.suffix_cons c cs).isInfix)
      simp only [replaceAllFrom, hcut, ih cs hcs]

theorem replaceAllFrom_lead (old : List Char) (hold : old ≠ []) (name : List Char)
    (hname : ¬ old <:+: name) :
    replaceAllFrom old [] (old ++ name).length (old ++ name) = name := by
  cases old with
  | nil => exact absurd rfl hold
  | cons a old =>
    have h := cutLeading_append (a :: old) name
    simp only [List.cons_append, List.length_cons] at h ⊢
    simp only [replaceAllFrom, h, List.nil_append]
    exact replaceAllFrom_of_not_infix _ _ _ _ hname

theorem repoLead_data_ne_nil (org : String) : (repoLead org).data ≠ [] := by
  simp [repoLead, String.data_append]

theorem repoOf_lead (org name : String) (hname : ¬ (repoLead org).data <:+: name.data) :
    repoOf org (repoLead org ++ name) = name := by
  simp only [repoOf, replaceAll, repoLead_data_ne_nil, if_false, String.data_append]
  have h := replaceAllFrom_lead (repoLead org).data (repoLead_data_ne_nil org) name.data hname
  show String.mk (replaceAllFrom (repoLead org).data "".data _ _) = name
  rw [show "".data = [] from rfl, h]

theorem mem_setAdd (s : List String) (k r : String) : r ∈ setAdd s k ↔ r ∈ s ∨ r = k := by
  unfold setAdd
  split_ifs with h
  · constructor
    · exact Or.inl
    · rintro (h1 | h1)
      · exact h1
      · exact h1 ▸ h
  · simp

theorem nodup_setAdd (s : List String) (k : String) (h : s.Nodup) : (setAdd s k).Nodup := by
  unfold setAdd
  split_ifs with hk
  · exact h
  · exact List.Nodup.append h (List.nodup_singleton k) (by simpa using hk)

theorem tallyOf_repos (org : String) (issues : List Issue) : ∀ (t : Tally) (r : String),
    r ∈ (tallyOf org issues t).relatedRepos ↔
      r ∈ t.relatedRepos ∨ ∃ p ∈ issues, ∃ url, authorLogin p ≠ none ∧
        p.repositoryURL = some url ∧ repoOf org url = r := by
  induction issues with
  | nil => intro t r; simp [tallyOf]
  | cons p rest ih =>
    intro t r
    cases hl : authorLogin p with
    | none =>
      simp only [tallyOf, hl, ih, List.mem_cons, exists_eq_or_imp, ne_eq, not_true_eq_false,
        false_and, exists_const, false_or]
    | some login =>
      cases hurl : p.repositoryURL with
      | none =>
        simp only [tallyOf, hl, hurl, ih, List.mem_cons, exists_eq_or_imp, ne_eq, reduceCtorEq,
          not_false_eq_true, false_and, and_false, exists_const, false_or, true_and]
      | some url =>
        simp only [tallyOf, hl, hurl, ih, countIssue, mem_setAdd, List.mem_cons,
          exists_eq_or_imp, ne_eq, not_false_eq_true, true_and, reduceCtorEq,
          Option.some.injEq, exists_eq_left']
        constructor
        · rintro ((h | h) | h)
          · exact Or.inl h
          · exact Or.inr (Or.inl h.symm)
          · exact Or.inr (Or.inr h)
        · rintro (h | h | h)
          · exact Or.inl (Or.inl h)
          · exact Or.inl (Or.inr h.symm)
          · exact Or.inr h

theorem tallyOf_repos_nodup (org : String) (issues : List Issue) : ∀ t : Tally,
    t.relatedRepos.Nodup → (tallyOf org issues t).relatedRepos.Nodup := by
  induction issues with
  | nil => intro t h; exact h
  | cons p rest ih =>
    intro t h
    cases hl : authorLogin p with
    | none => simp only [tallyOf, hl]; exact ih t h
    | some login =>
      cases hurl : p.repositoryURL with
      | none => simp only [tallyOf, hl, hurl]; exact ih t h
      | some url =>
        simp only [tallyOf, hl, hurl]
        exact ih _ (nodup_setAdd _ _ h)

theorem slash_mem_repoLead (org : String) : '/' ∈ (repoLead org).data := by
  simp [repoLead, String.data_append]

theorem not_infix_of_no_slash (org name : String) (h : '/' ∉ name.data) :
    ¬ (repoLead org).data <:+: name.data :=
  fun hin => h (hin.subset (slash_mem_repoLead org))

theorem length_replaceAllFrom_le (old : List Char) (n : Nat) :
    ∀ s : List Char, (replaceAllFrom old [] n s).length ≤ s.length := by
  induction n with
  | zero => intro s; cases s <;> simp [replaceAllFrom]
  | succ n ih =>
    intro s
    cases s with
    | nil => simp [replaceAllFrom]
    | cons c cs =>
      simp only [replaceAllFrom]
      cases hc : cutLeading old (c :: cs) with
      | none => simpa using ih cs
      | some rest =>
        have h1 := cutLeading_eq_some old _ rest hc
        have h2 := ih rest
        have h3 : (c :: cs).length = old.length + rest.length := by rw [h1]; simp
        simp only [List.nil_append]
        omega

theorem length_replaceAllFrom_lt (old : List Char) (hold : old ≠ []) (n : Nat) :
    ∀ s : List Char, s.length ≤ n → old <:+: s → (replaceAllFrom old [] n s).length < s.length := by
  induction n with
  | zero =>
    intro s hn hs
    have : s = [] := List.eq_nil_of_length_eq_zero (by omega)
    subst this
    exact absurd (List.eq_nil_of_infix_nil hs) hold
  | succ n ih =>
    intro s hn hs
    cases s with
    | nil => exact absurd (List.eq_nil_of_infix_nil hs) hold
    | cons c cs =>
      simp only [replaceAllFrom]
      cases hc : cutLeading old (c :: cs) with
      | some rest =>
        have h1 := cutLeading_eq_some old _ rest hc
        have h2 := length_replaceAllFrom_le old n rest
        have h3 : (c :: cs).length = old.length + rest.length := by rw [h1]; simp
        have h4 : 0 < old.length := List.length_pos.mpr hold
        simp only [List.nil_append]
        omega
      | none =>
        have hcs : old <:+: cs := by
          rcases List.infix_cons_iff.mp hs with h | h
          · obtain ⟨t, ht⟩ := h
            rw [← ht, cutLeading_append] at hc
            exact absurd hc (by simp)
          · exact h
        have := ih cs (by simpa using hn) hcs
        simpa using this

theorem replaceAllFrom_append (old name : List Char) (hold : old ≠ []) (n : Nat) :
    replaceAllFrom old [] (n + 1) (old ++ name) = replaceAllFrom old [] n name := by
  cases old with
  | nil => exact absurd rfl hold
  | cons a old =>
    have h := cutLeading_append (a :: old) name
    simp only [List.cons_append] at h ⊢
    simp only [replaceAllFrom, h, List.nil_append]

theorem repoOf_lead_iff (org name : String) :
    repoOf org (repoLead org ++ name) = name ↔ ¬ (repoLead org).data <:+: name.data := by
  constructor
  · intro h hin
    have hd : (repoOf org (repoLead org ++ name)).data = name.data := by rw [h]
    have hpos : 0 < (repoLead org).data.length := List.length_pos.mpr (repoLead_data_ne_nil org)
    have hlen : ((repoLead org).data ++ name.data).length =
        ((repoLead org).data.length - 1 + name.data.length) + 1 := by
      rw [List.length_append]; omega
    simp only [repoOf, replaceAll, repoLead_data_ne_nil, if_false, String.data_append] at hd
    rw [hlen, replaceAllFrom_append _ _ (repoLead_data_ne_nil org)] at hd
    have hlt := length_replaceAllFrom_lt (repoLead org).data (repoLead_data_ne_nil org)
      ((repoLead org).data.length - 1 + name.data.length) name.data (by omega) hin
    rw [hd] at hlt
    exact absurd hlt (lt_irrefl _)
  · exact repoOf_lead org name

theorem soundIssue_of_authored (includeReviews : Bool) (p : Issue) (url : String)
    (hlogin : authorLogin p ≠ none) (hurl : p.repositoryURL = some url)
    (hnum : includeReviews = true → p.number ≠ none) : soundIssue includeReviews p = true := by
  cases hu : p.user with
  | none => simp [authorLogin, hu] at hlogin
  | some u =>
    cases hl : u.login with
    | none => simp [authorLogin, hu, hl] at hlogin
    | some login =>
      cases hi : includeReviews with
      | false => simp [soundIssue, hu, hl, hurl]
      | true =>
        have hn := hnum hi
        cases hnn : p.number with
        | none => exact absurd hnn hn
        | some n => simp [soundIssue, hu, hl, hurl, hnn]

/-- C6: for every organization `org` and every list of issues that have an author login
and the repository URL `"https://api.github.com/repos/" + org + "/" + name`, `name` being
a repository name, which holds no `/`, the aggregation loop of `pullsExecute` (when the
review calls, if any are made, succeed on issues that have a number, with reviews that
have a user) ends with a related-repository set that has no repeated entry and holds
exactly those names: the identifier derived from each URL is the name. -/
theorem related_repos {σ : Type} (env : Remote σ) (fuel : Nat) (org : String)
    (includeReviews : Bool) (issues : List Issue) (w : σ) (ev : List Event) (hfuel : 1 ≤ fuel)
    (hrev : includeReviews = true → (∀ p ∈ issues, p.number ≠ none) ∧
      ∀ (w : σ) (repo : String) (number : Int),
        ∃ rs, (env.listReviews w org repo number 100).1 = Except.ok rs ∧ ∀ r ∈ rs, r.user ≠ none)
    (name : Issue → String)
    (hissues : ∀ p ∈ issues, authorLogin p ≠ none ∧
      p.repositoryURL = some (repoLead org ++ name p) ∧ '/' ∉ (name p).data) :
    ∃ a, aggregate env fuel org includeReviews issues ⟨[], []⟩ w ev = some a ∧
      a.ending = Ending.finished ∧ a.tally.relatedRepos.Nodup ∧
      (∀ r, r ∈ a.tally.relatedRepos ↔ r ∈ issues.map name) ∧
      ∀ p ∈ issues, repoOf org (repoLead org ++ name p) = name p := by
  have hsound : ∀ p ∈ issues, soundIssue includeReviews p = true := fun p hp =>
    soundIssue_of_authored includeReviews p _ (hissues p hp).1 (hissues p hp).2.1
      (fun hi => (hrev hi).1 p hp)
  obtain ⟨a, h1, h2, h3⟩ := aggregate_tally env fuel org includeReviews hfuel
    (fun hi => (hrev hi).2) issues hsound ⟨[], []⟩ w ev
  have hname : ∀ p ∈ issues, repoOf org (repoLead org ++ name p) = name p := fun p hp =>
    repoOf_lead org _ (not_infix_of_no_slash org _ (hissues p hp).2.2)
  refine ⟨a, h1, h2, ?_, ?_, hname⟩
  · rw [h3]; exact tallyOf_repos_nodup org issues _ List.nodup_nil
  · intro r
    rw [h3, tallyOf_repos]
    simp only [List.not_mem_nil, false_or, List.mem_map]
    constructor
    · rintro ⟨p, hp, url, _, hurl, hr⟩
      obtain ⟨_, hurl', _⟩ := hissues p hp
      rw [hurl'] at hurl
      simp only [Option.some.injEq] at hurl
      rw [← hurl, hname p hp] at hr
      exact ⟨p, hp, hr⟩
    · rintro ⟨p, hp, hr⟩
      obtain ⟨hlog, hurl, _⟩ := hissues p hp
      exact ⟨p, hp, _, hlog, hurl, by rw [hname p hp, hr]⟩

/-- The example of C6, with the review calls switched on: the URLs of `acme/repoA` and
`acme/repoB` give exactly the names `repoA` and `repoB`. -/
theorem related_repos_witness :
    (∃ a, aggregate scriptRemote 1 "acme" true twoAuthors ⟨[], []⟩ idleWorld [] = some a ∧
      a.ending = Ending.finished ∧ a.tally.relatedRepos.Nodup ∧
      (∀ r, r ∈ a.tally.relatedRepos ↔
        r ∈ twoAuthors.map (fun p => if p.number = some 1 then "repoA" else "repoB")) ∧
      ∀ p ∈ twoAuthors, repoOf "acme" (repoLead "acme" ++
        (fun p : Issue => if p.number = some 1 then "repoA" else "repoB") p) =
          (fun p : Issue => if p.number = some 1 then "repoA" else "repoB") p) ∧
    (aggregate scriptRemote 1 "acme" true twoAuthors ⟨[], []⟩ idleWorld []).map
      (fun a => (a.ending, a.tally.relatedRepos)) = some (Ending.finished, ["repoA", "repoB"]) :=
  ⟨related_repos scriptRemote 1 "acme" true twoAuthors idleWorld [] (by decide)
    (fun _ => ⟨by decide, fun _ _ _ => ⟨[], rfl, by simp⟩⟩)
    (fun p => if p.number = some 1 then "repoA" else "repoB") (by decide), by decide⟩

/-! ## The ranking -/

theorem sliceStable_perm {α : Type} (less : α → α → Bool) (xs : List α) :
    (sliceStable less xs).Perm xs :=
  List.perm_insertionSort _ xs

theorem sliceStable_filter {α : Type} (less : α → α → Bool) (keep : α → Bool)
    (hkeep : ∀ a b, keep a = true → keep b = true → less b a = false) (xs : List α) :
    (sliceStable less xs).filter keep = xs.filter keep := by
  have hpair : (xs.filter keep).Pairwise (fun a b => less b a = false) := by
    rw [List.pairwise_iff_forall_sublist]
    intro a b hab
    have ha : a ∈ xs.filter keep := hab.subset (by simp)
    have hb : b ∈ xs.filter keep := hab.subset (by simp)
    exact hkeep a b (List.mem_filter.mp ha).2 (List.mem_filter.mp hb).2
  have hsub : List.Sublist (xs.filter keep) (sliceStable less xs) :=
    List.sublist_insertionSort hpair (List.filter_sublist xs)
  have hsub2 : List.Sublist (xs.filter keep) ((sliceStable less xs).filter keep) := by
    have := hsub.filter keep
    rwa [List.filter_filter, show (fun a => (keep a && keep a)) = keep from by
      funext a; cases keep a <;> rfl] at this
  have hlen : ((sliceStable less xs).filter keep).length = (xs.filter keep).length :=
    ((sliceStable_perm less xs).filter keep).length_eq
  exact (hsub2.eq_of_length hlen.symm).symm

theorem rankUsers_sorted (counts : List (String × Int)) (users : List String) :
    (rankUsers counts users).Pairwise (fun x y => mapGet counts y ≤ mapGet counts x) := by
  have htotal : IsTotal String (fun a b =>
      decide (mapGet counts b > mapGet counts a) = false) :=
    ⟨fun a b => by
      simp only [gt_iff_lt, decide_eq_false_iff_not, not_lt]
      exact le_total _ _⟩
  have htrans : IsTrans String (fun a b =>
      decide (mapGet counts b > mapGet counts a) = false) :=
    ⟨fun a b c => by
      simp only [gt_iff_lt, decide_eq_false_iff_not, not_lt]
      exact fun h1 h2 => le_trans h2 h1⟩
  have h := List.sorted_insertionSort (fun a b =>
      decide (mapGet counts b > mapGet counts a) = false) users
  refine List.Pairwise.imp ?_ h
  intro a b hab
  simpa using hab

theorem rankUsers_ties (counts : List (String × Int)) (users : List String) :
    TiesFollow (mapGet counts) users (rankUsers counts users) := by
  intro n
  refine sliceStable_filter _ _ ?_ users
  intro a b ha hb
  simp only [decide_eq_true_eq] at ha hb
  simp [ha, hb]

theorem ranking_order {σ : Type} (env : Remote σ) (fuel : Nat) (org : String)
    (includeReviews : Bool) (issues : List Issue) (w : σ) (ev : List Event) (hfuel : 1 ≤ fuel)
    (hrev : includeReviews = true → ∀ (w : σ) (repo : String) (number : Int),
      ∃ rs, (env.listReviews w org repo number 100).1 = Except.ok rs ∧ ∀ r ∈ rs, r.user ≠ none)
    (hsound : ∀ p ∈ issues, soundIssue includeReviews p = true)
    (userOrder : List String → List String) (horder : ∀ l, (userOrder l).Perm l) :
    ∃ a, aggregate env fuel org includeReviews issues ⟨[], []⟩ w ev = some a ∧
      a.ending = Ending.finished ∧
      (rankUsers a.tally.userPullRequestsCount
        (userOrder (mapKeys a.tally.userPullRequestsCount))).Nodup ∧
      (∀ u, u ∈ rankUsers a.tally.userPullRequestsCount
        (userOrder (mapKeys a.tally.userPullRequestsCount)) ↔ u ∈ authors issues) ∧
      (∀ u, mapGet a.tally.userPullRequestsCount u = ((authors issues).count u : Int)) ∧
      (rankUsers a.tally.userPullRequestsCount
        (userOrder (mapKeys a.tally.userPullRequestsCount))).Pairwise
          (fun x y => mapGet a.tally.userPullRequestsCount y ≤
            mapGet a.tally.userPullRequestsCount x) ∧
      TiesFollow (mapGet a.tally.userPullRequestsCount)
        (userOrder (mapKeys a.tally.userPullRequestsCount))
        (rankUsers a.tally.userPullRequestsCount
          (userOrder (mapKeys a.tally.userPullRequestsCount))) := by
  obtain ⟨a, h1, h2, h3⟩ := aggregate_tally env fuel org includeReviews hfuel hrev issues hsound
    ⟨[], []⟩ w ev
  have hfind : ∀ u, mapFind a.tally.userPullRequestsCount u =
      if (authors issues).count u = 0 then none else some ((authors issues).count u : Int) := by
    intro u
    rw [h3, tallyOf_counts org includeReviews issues hsound]
    split_ifs with h0
    · rfl
    · simp [mapGet]
  have hnodup : (mapKeys a.tally.userPullRequestsCount).Nodup := by
    rw [h3]; exact tallyOf_nodup org issues _ (by simp [mapKeys])
  have hperm : (rankUsers a.tally.userPullRequestsCount
      (userOrder (mapKeys a.tally.userPullRequestsCount))).Perm
        (mapKeys a.tally.userPullRequestsCount) :=
    (sliceStable_perm _ _).trans (horder _)
  refine ⟨a, h1, h2, hperm.nodup_iff.mpr hnodup, ?_, ?_, rankUsers_sorted _ _,
    rankUsers_ties _ _⟩
  · intro u
    rw [hperm.mem_iff, mem_mapKeys_iff, hfind]
    by_cases h0 : (authors issues).count u = 0
    · simp only [h0, if_true, ne_eq, not_true_eq_false, false_iff]
      exact List.count_eq_zero.mp h0
    · simp only [h0, if_false, ne_eq, reduceCtorEq, not_false_eq_true, true_iff]
      exact List.count_pos_iff.mp (Nat.pos_of_ne_zero h0)
  · intro u
    rw [mapGet_eq_getD, hfind]
    split_ifs with h0
    · simp [h0]
    · rfl

/-- C5 fails on the code: for one issue by alice followed by one by bob, both of count 1,
a run of `pullsExecute` in which the `range` over the count map yields bob before alice
renders bob, alice, and a run in which it yields alice first renders alice, bob: the
stable sort keeps the order of the map iteration, which is not the order alice, bob in
which the authors were first met. -/
theorem ranking_ties_follow_map_order :
    (pullsExecute (pagedRemote [twoAuthors]) List.reverse id 1 "acme" "" "" false 0).map
      (fun r => rankedUsers r.status) = some (some ["bob", "alice"]) ∧
    (pullsExecute (pagedRemote [twoAuthors]) id id 1 "acme" "" "" false 0).map
      (fun r => rankedUsers r.status) = some (some ["alice", "bob"]) ∧
    (aggregate (pagedRemote [twoAuthors]) 1 "acme" false twoAuthors ⟨[], []⟩ 1 []).map
      (fun a => a.tally.userPullRequestsCount) = some [("alice", 1), ("bob", 1)] ∧
    (List.reverse ["alice", "bob"]).Perm ["alice", "bob"] ∧
    firstSeen (authors twoAuthors) = ["alice", "bob"] ∧
    ¬ TiesFollow (mapGet [("alice", 1), ("bob", 1)]) (firstSeen (authors twoAuthors))
      ["bob", "alice"] :=
  ⟨by decide, by decide, by decide, List.reverse_perm _, by decide,
    fun h => absurd (h 1) (by decide)⟩

/-! ## Loops -/

theorem loop_mono {S R : Type} (body : S → Option (Step S R)) (n m : Nat) (s : S) (r : R)
    (h : loop body n s = some r) (hnm : n ≤ m) : loop body m s = some r := by
  induction n generalizing m s with
  | zero => simp [loop] at h
  | succ n ih =>
    obtain ⟨m, rfl⟩ : ∃ k, m = k + 1 := ⟨m - 1, by omega⟩
    simp only [loop] at h ⊢
    cases hb : body s with
    | none => simp [hb] at h
    | some st =>
      cases st with
      | next t =>
        simp only [hb] at h ⊢
        exact ih m t h (by omega)
      | done q =>
        simp only [hb] at h ⊢
        exact h

theorem loop_passes {S R : Type} (body : S → Option (Step S R)) (k n : Nat) (s t : S)
    (h : passes body k s = some t) : loop body (k + n) s = loop body n t := by
  induction k generalizing s with
  | zero =>
    simp only [passes, Option.some.injEq] at h
    subst h
    simp
  | succ k ih =>
    simp only [passes] at h
    cases hb : body s with
    | none => simp [hb] at h
    | some st =>
      cases st with
      | next u =>
        simp only [hb] at h
        rw [show k + 1 + n = (k + n) + 1 by omega]
        simp only [loop, hb]
        exact ih u h
      | done q => simp [hb] at h

theorem loop_next {S R : Type} (body : S → Option (Step S R)) (n : Nat) (s t : S)
    (h : body s = some (Step.next t)) : loop body (n + 1) s = loop body n t := by
  simp only [loop, h]

theorem loop_done {S R : Type} (body : S → Option (Step S R)) (n : Nat) (s : S) (r : R)
    (h : body s = some (Step.done r)) : loop body (n + 1) s = some r := by
  simp only [loop, h]

/-! ## One pass of `getPullRequests` -/

theorem getPullRequestsBody_ok_last {σ : Type} (env : Remote σ) (org user dateQuery : String)
    (l : PageLoop σ) (ps : IssuesSearchResult)
    (h : (env.searchIssues l.world (searchQuery org user dateQuery) l.page 100).1 = Except.ok ps)
    (hnext : ps.nextPage ≤ 0) :
    getPullRequestsBody env org user dateQuery l =
      Step.done ⟨l.pullRequests ++ ps.issues, none,
        (env.searchIssues l.world (searchQuery org user dateQuery) l.page 100).2,
        l.events ++ [Event.searchIssues (searchQuery org user dateQuery) l.page 100]⟩ := by
  simp only [getPullRequestsBody, h, hnext, if_true]

theorem getPullRequestsBody_ok_more {σ : Type} (env : Remote σ) (org user dateQuery : String)
    (l : PageLoop σ) (ps : IssuesSearchResult)
    (h : (env.searchIssues l.world (searchQuery org user dateQuery) l.page 100).1 = Except.ok ps)
    (hnext : 0 < ps.nextPage) :
    getPullRequestsBody env org user dateQuery l =
      Step.next ⟨(env.searchIssues l.world (searchQuery org user dateQuery) l.page 100).2,
        ps.nextPage, l.pullRequests ++ ps.issues,
        l.events ++ [Event.searchIssues (searchQuery org user dateQuery) l.page 100]⟩ := by
  have hn : ¬ ps.nextPage ≤ 0 := by omega
  simp only [getPullRequestsBody, h, hn, if_false]

theorem getPullRequestsBody_rateLimit {σ : Type} (env : Remote σ) (org user dateQuery : String)
    (l : PageLoop σ) (reset : Time)
    (h : (env.searchIssues l.world (searchQuery org user dateQuery) l.page 100).1 =
      Except.error (ApiError.rateLimit reset)) :
    getPullRequestsBody env org user dateQuery l =
      Step.next ⟨env.sleep (env.searchIssues l.world (searchQuery org user dateQuery) l.page 100).2
          (timeSince (env.now
            (env.searchIssues l.world (searchQuery org user dateQuery) l.page 100).2) reset),
        l.page, l.pullRequests,
        l.events ++ [Event.searchIssues (searchQuery org user dateQuery) l.page 100] ++
          [Event.sleep (timeSince (env.now
            (env.searchIssues l.world (searchQuery org user dateQuery) l.page 100).2) reset)]⟩ := by
  simp only [getPullRequestsBody, h]

theorem getPullRequestsBody_abuse {σ : Type} (env : Remote σ) (org user dateQuery : String)
    (l : PageLoop σ) (retryAfter : Option Duration)
    (h : (env.searchIssues l.world (searchQuery org user dateQuery) l.page 100).1 =
      Except.error (ApiError.abuseRateLimit retryAfter)) :
    getPullRequestsBody env org user dateQuery l =
      Step.next ⟨env.sleep (env.searchIssues l.world (searchQuery org user dateQuery) l.page 100).2
          (30 * second),
        l.page, l.pullRequests,
        l.events ++ [Event.searchIssues (searchQuery org user dateQuery) l.page 100] ++
          [Event.sleep (30 * second)]⟩ := by
  simp only [getPullRequestsBody, h]

theorem getPullRequestsBody_other {σ : Type} (env : Remote σ) (org user dateQuery : String)
    (l : PageLoop σ) (m : String)
    (h : (env.searchIssues l.world (searchQuery org user dateQuery) l.page 100).1 =
      Except.error (ApiError.other m)) :
    getPullRequestsBody env org user dateQuery l =
      Step.done ⟨l.pullRequests, some (ApiError.other m),
        (env.searchIssues l.world (searchQuery org user dateQuery) l.page 100).2,
        l.events ++ [Event.searchIssues (searchQuery org user dateQuery) l.page 100]⟩ := by
  simp only [getPullRequestsBody, h]

/-! ## Pagination -/

theorem walk_pages {σ : Type} (env : Remote σ) (org user dateQuery : String) (N : Nat)
    (pages : Nat → List Issue)
    (hapi : ∀ (w : σ) (k : Nat), 1 ≤ k → k ≤ N →
      (env.searchIssues w (searchQuery org user dateQuery) (k : Int) 100).1 =
        Except.ok ⟨pages k, if k < N then (k : Int) + 1 else 0⟩) :
    ∀ (d k : Nat), 1 ≤ k → k + d = N → ∀ (l : PageLoop σ), l.page = (k : Int) → ∀ n : Nat,
      ∃ r, loop (fun l => some (getPullRequestsBody env org user dateQuery l)) (d + 1 + n) l =
          some r ∧ r.err = none ∧
        r.pullRequests = l.pullRequests ++ (List.range' k (d + 1)).flatMap pages ∧
        r.events = l.events ++ (List.range' k (d + 1)).map
          (fun (i : Nat) => Event.searchIssues (searchQuery org user dateQuery) (i : Int) 100) := by
  intro d
  induction d with
  | zero =>
    intro k hk hkN l hl n
    have hkN2 : k = N := by omega
    have h := hapi l.world k hk (by omega)
    rw [← hl] at h
    have hlt : ¬ k < N := by omega
    simp only [hlt, if_false] at h
    have hrun := loop_done (fun l => some (getPullRequestsBody env org user dateQuery l)) n l _
      (congrArg some (getPullRequestsBody_ok_last env org user dateQuery l _ h (le_refl _)))
    rw [show 0 + 1 + n = n + 1 by omega]
    exact ⟨_, hrun, rfl, by simp [List.range'], by simp [List.range', hl]⟩
  | succ d ih =>
    intro k hk hkN l hl n
    have h := hapi l.world k hk (by omega)
    rw [← hl] at h
    have hlt : k < N := by omega
    simp only [hlt, if_true] at h
    have hstep := getPullRequestsBody_ok_more env org user dateQuery l _ h
      (by show (0 : Int) < l.page + 1; omega)
    obtain ⟨r, hr, herr, hprs, hev⟩ := ih (k + 1) (by omega) (by omega)
      ⟨(env.searchIssues l.world (searchQuery org user dateQuery) l.page 100).2,
        l.page + 1, l.pullRequests ++ pages k,
        l.events ++ [Event.searchIssues (searchQuery org user dateQuery) l.page 100]⟩
      (by show l.page + 1 = ((k + 1 : Nat) : Int); rw [hl]; push_cast; rfl) n
    refine ⟨r, ?_, herr, ?_, ?_⟩
    · rw [show d + 1 + 1 + n = (d + 1 + n) + 1 by omega, loop_next _ _ l _ (congrArg some hstep)]
      exact hr
    · rw [hprs]
      simp [List.range'_succ k (d + 1), List.append_assoc]
    · rw [hev]
      simp [List.range'_succ k (d + 1), List.append_assoc, hl]

/-- C2: against a remote that answers page `k`, for `1 ≤ k ≤ N`, with the issues
`pages k` and the next-page indicator `k + 1` below `N` and `0` at `N`, every run of
`getPullRequests` of at least `N` passes returns without error the issues of the pages
1 to `N` in order, having made exactly the `N` requests for the pages 1, ..., `N`, each
of page size 100, and nothing else. -/
theorem pagination_walk {σ : Type} (env : Remote σ) (org user dateQuery : String) (N : Nat)
    (hN : 1 ≤ N) (pages : Nat → List Issue)
    (hapi : ∀ (w : σ) (k : Nat), 1 ≤ k → k ≤ N →
      (env.searchIssues w (searchQuery org user dateQuery) (k : Int) 100).1 =
        Except.ok ⟨pages k, if k < N then (k : Int) + 1 else 0⟩)
    (w : σ) (fuel : Nat) (hfuel : N ≤ fuel) :
    ∃ r, getPullRequests env fuel org user dateQuery w = some r ∧ r.err = none ∧
      r.pullRequests = (List.range' 1 N).flatMap pages ∧
      r.events = (List.range' 1 N).map
        (fun (k : Nat) => Event.searchIssues (searchQuery org user dateQuery) (k : Int) 100) := by
  obtain ⟨d, rfl⟩ : ∃ d, N = d + 1 := ⟨N - 1, by omega⟩
  obtain ⟨r, hr, herr, hprs, hev⟩ := walk_pages env org user dateQuery (d + 1) pages hapi d 1
    (le_refl 1) (by omega) (pageLoopStart w) rfl (fuel - (d + 1))
  refine ⟨r, ?_, herr, ?_, ?_⟩
  · rw [show d + 1 + (fuel - (d + 1)) = fuel by omega] at hr
    exact hr
  · simpa [pageLoopStart] using hprs
  · simpa [pageLoopStart] using hev

/-- The example of C2: a remote with three pages is asked for the pages 1, 2, 3 and the
three issues come back in order. -/
theorem pagination_walk_witness :
    (∃ r, getPullRequests (pagedRemote threePages) 3 "acme" "" "" 0 = some r ∧ r.err = none ∧
      r.pullRequests = (List.range' 1 3).flatMap (fun k => threePages.getD (k - 1) []) ∧
      r.events = (List.range' 1 3).map
        (fun (k : Nat) => Event.searchIssues (searchQuery "acme" "" "") (k : Int) 100)) ∧
    (getPullRequests (pagedRemote threePages) 3 "acme" "" "" 0).map
      (fun r => (r.pullRequests.map (fun p => p.number), r.err, requestedPages r.events)) =
      some ([some 1, some 2, some 4], none, [1, 2, 3]) :=
  ⟨pagination_walk (pagedRemote threePages) "acme" "" "" 3 (by decide)
    (fun k => threePages.getD (k - 1) [])
    (fun w k h1 h2 => by
      have hk : k = 1 ∨ k = 2 ∨ k = 3 := by omega
      rcases hk with rfl | rfl | rfl <;> rfl)
    0 3 (le_refl 3), by decide⟩

/-! ## Retries -/

theorem scriptRemote_search (rep : Except ApiError IssuesSearchResult)
    (rest : List (Except ApiError IssuesSearchResult)) (clock : Time) (query : String)
    (page perPage : Int) :
    scriptRemote.searchIssues ⟨rep :: rest, clock⟩ query page perPage = (rep, ⟨rest, clock⟩) :=
  rfl

theorem scriptRemote_search_nil (clock : Time) (query : String) (page perPage : Int) :
    scriptRemote.searchIssues ⟨[], clock⟩ query page perPage =
      (Except.error (ApiError.other "no scripted reply left"), ⟨[], clock⟩) :=
  rfl

theorem script_retry (org user dateQuery : String)
    (script : List (Except ApiError IssuesSearchResult)) :
    ∀ (page : Int) (acc : List Issue) (ev1 ev2 : List Event) (c1 c2 : Time) (f1 f2 : Nat),
      script.length < f1 → (script.filter (fun x => !isRetry x)).length < f2 →
      ∃ r rc,
        loop (fun l => some (getPullRequestsBody scriptRemote org user dateQuery l)) f1
          ⟨⟨script, c1⟩, page, acc, ev1⟩ = some r ∧
        loop (fun l => some (getPullRequestsBody scriptRemote org user dateQuery l)) f2
          ⟨⟨script.filter (fun x => !isRetry x), c2⟩, page, acc, ev2⟩ = some rc ∧
        r.err = rc.err ∧ r.pullRequests = rc.pullRequests := by
  induction script with
  | nil =>
    intro page acc ev1 ev2 c1 c2 f1 f2 h1 h2
    obtain ⟨n1, rfl⟩ : ∃ n, f1 = n + 1 := ⟨f1 - 1, by omega⟩
    obtain ⟨n2, rfl⟩ : ∃ n, f2 = n + 1 := ⟨f2 - 1, by simp at h2; omega⟩
    refine ⟨_, _, loop_done _ n1 _ _ (congrArg some
      (getPullRequestsBody_other scriptRemote org user dateQuery _ _ rfl)),
      loop_done _ n2 _ _ (congrArg some
      (getPullRequestsBody_other scriptRemote org user dateQuery _ _ rfl)), rfl, rfl⟩
  | cons rep rest ih =>
    intro page acc ev1 ev2 c1 c2 f1 f2 h1 h2
    obtain ⟨n1, rfl⟩ : ∃ n, f1 = n + 1 := ⟨f1 - 1, by omega⟩
    simp only [List.length_cons, Nat.add_lt_add_iff_right] at h1
    cases rep with
    | error e =>
      cases e with
      | rateLimit reset =>
        have hf : (List.filter (fun x => !isRetry x)
            (Except.error (ApiError.rateLimit reset) :: rest)) =
            List.filter (fun x => !isRetry x) rest := by simp [List.filter, isRetry]
        rw [hf] at h2 ⊢
        obtain ⟨r, rc, hr, hrc, he, hp⟩ := ih page acc
          (ev1 ++ [Event.searchIssues (searchQuery org user dateQuery) page 100] ++
            [Event.sleep (timeSince c1 reset)]) ev2
          (c1 + sleepWait (timeSince c1 reset)) c2 n1 f2 h1 h2
        refine ⟨r, rc, ?_, hrc, he, hp⟩
        rw [loop_next _ n1 _ _ (congrArg some
          (getPullRequestsBody_rateLimit scriptRemote org user dateQuery
            ⟨⟨Except.error (ApiError.rateLimit reset) :: rest, c1⟩, page, acc, ev1⟩ reset rfl))]
        exact hr
      | abuseRateLimit retryAfter =>
        have hf : (List.filter (fun x => !isRetry x)
            (Except.error (ApiError.abuseRateLimit retryAfter) :: rest)) =
            List.filter (fun x => !isRetry x) rest := by simp [List.filter, isRetry]
        rw [hf] at h2 ⊢
        obtain ⟨r, rc, hr, hrc, he, hp⟩ := ih page acc
          (ev1 ++ [Event.searchIssues (searchQuery org user dateQuery) page 100] ++
            [Event.sleep (30 * second)]) ev2
          (c1 + sleepWait (30 * second)) c2 n1 f2 h1 h2
        refine ⟨r, rc, ?_, hrc, he, hp⟩
        rw [loop_next _ n1 _ _ (congrArg some
          (getPullRequestsBody_abuse scriptRemote org user dateQuery
            ⟨⟨Except.error (ApiError.abuseRateLimit retryAfter) :: rest, c1⟩, page, acc, ev1⟩
            retryAfter rfl))]
        exact hr
      | other m =>
        have hf : (List.filter (fun x => !isRetry x)
            (Except.error (ApiError.other m) :: rest)) =
            Except.error (ApiError.other m) :: List.filter (fun x => !isRetry x) rest := by
          simp [List.filter, isRetry]
        rw [hf] at h2 ⊢
        obtain ⟨n2, rfl⟩ : ∃ n, f2 = n + 1 := ⟨f2 - 1, by omega⟩
        exact ⟨_, _, loop_done _ n1 _ _ (congrArg some
          (getPullRequestsBody_other scriptRemote org user dateQuery _ m rfl)),
          loop_done _ n2 _ _ (congrArg some
          (getPullRequestsBody_other scriptRemote org user dateQuery _ m rfl)), rfl, rfl⟩
    | ok ps =>
      have hf : (List.filter (fun x => !isRetry x) (Except.ok ps :: rest)) =
          Except.ok ps :: List.filter (fun x => !isRetry x) rest := by
        simp [List.filter, isRetry]
      rw [hf] at h2 ⊢
      obtain ⟨n2, rfl⟩ : ∃ n, f2 = n + 1 := ⟨f2 - 1, by omega⟩
      simp only [List.length_cons, Nat.add_lt_add_iff_right] at h2
      by_cases hnext : ps.nextPage ≤ 0
      · exact ⟨_, _, loop_done _ n1 _ _ (congrArg some
          (getPullRequestsBody_ok_last scriptRemote org user dateQuery _ ps rfl hnext)),
          loop_done _ n2 _ _ (congrArg some
          (getPullRequestsBody_ok_last scriptRemote org user dateQuery _ ps rfl hnext)),
          rfl, rfl⟩
      · have hpos : 0 < ps.nextPage := by omega
        obtain ⟨r, rc, hr, hrc, he, hp⟩ := ih ps.nextPage (acc ++ ps.issues)
          (ev1 ++ [Event.searchIssues (searchQuery org user dateQuery) page 100])
          (ev2 ++ [Event.searchIssues (searchQuery org user dateQuery) page 100])
          c1 c2 n1 n2 h1 h2
        refine ⟨r, rc, ?_, ?_, he, hp⟩
        · rw [loop_next _ n1 _ _ (congrArg some
            (getPullRequestsBody_ok_more scriptRemote org user dateQuery
              ⟨⟨Except.ok ps :: rest, c1⟩, page, acc, ev1⟩ ps rfl hpos))]
          exact hr
        · rw [loop_next _ n2 _ _ (congrArg some
            (getPullRequestsBody_ok_more scriptRemote org user dateQuery
              ⟨⟨Except.ok ps :: List.filter (fun x => !isRetry x) rest, c2⟩, page, acc, ev2⟩
              ps rfl hpos))]
          exact hrc

theorem passEvents_begin {σ : Type} (env : Remote σ) (org user dateQuery : String)
    (l : PageLoop σ) :
    ∃ tail, passEvents (getPullRequestsBody env org user dateQuery l) =
      l.events ++ Event.searchIssues (searchQuery org user dateQuery) l.page 100 :: tail := by
  cases h : (env.searchIssues l.world (searchQuery org user dateQuery) l.page 100).1 with
  | error e =>
    cases e with
    | rateLimit reset =>
      rw [getPullRequestsBody_rateLimit env org user dateQuery l reset h]
      exact ⟨_, by simp [passEvents]; rfl⟩
    | abuseRateLimit retryAfter =>
      rw [getPullRequestsBody_abuse env org user dateQuery l retryAfter h]
      exact ⟨_, by simp [passEvents]; rfl⟩
    | other m =>
      rw [getPullRequestsBody_other env org user dateQuery l m h]
      exact ⟨[], rfl⟩
  | ok ps =>
    by_cases hnext : ps.nextPage ≤ 0
    · rw [getPullRequestsBody_ok_last env org user dateQuery l ps h hnext]
      exact ⟨[], rfl⟩
    · rw [getPullRequestsBody_ok_more env org user dateQuery l ps h (by omega)]
      exact ⟨[], rfl⟩

/-- C3: (1) in every world, a pass of `getPullRequests` whose request is answered by a
primary-rate-limit or an abuse-rate-limit failure sleeps once and goes to a next pass
with the same page number and the same collected issues, and that next pass begins with
the request for the same page; (2) against a scripted sequence of replies, a run of more
passes than the script is long returns, and it returns the same issues and the same
error value as the run against the script from which those failures are removed, so
that no error is returned and no issue is lost or doubled when the run without the
failures returns none. -/
theorem retry_same_page {σ : Type} (env : Remote σ) (org user dateQuery : String)
    (l : PageLoop σ)
    (hretry : isRetry (env.searchIssues l.world (searchQuery org user dateQuery) l.page 100).1
      = true)
    (script : List (Except ApiError IssuesSearchResult)) (clock : Time) (fuel : Nat)
    (hfuel : script.length < fuel) :
    (∃ d t, getPullRequestsBody env org user dateQuery l = Step.next t ∧ t.page = l.page ∧
      t.pullRequests = l.pullRequests ∧
      t.events = l.events ++
        [Event.searchIssues (searchQuery org user dateQuery) l.page 100, Event.sleep d] ∧
      ∃ tail, passEvents (getPullRequestsBody env org user dateQuery t) =
        l.events ++ [Event.searchIssues (searchQuery org user dateQuery) l.page 100,
          Event.sleep d, Event.searchIssues (searchQuery org user dateQuery) l.page 100]
          ++ tail) ∧
    ∃ r rc, getPullRequests scriptRemote fuel org user dateQuery ⟨script, clock⟩ = some r ∧
      getPullRequests scriptRemote fuel org user dateQuery
        ⟨script.filter (fun x => !isRetry x), clock⟩ = some rc ∧
      r.err = rc.err ∧ r.pullRequests = rc.pullRequests ∧
      (rc.err = none → r.err = none) := by
  constructor
  · cases h : (env.searchIssues l.world (searchQuery org user dateQuery) l.page 100).1 with
    | error e =>
      cases e with
      | rateLimit reset =>
        have hb := getPullRequestsBody_rateLimit env org user dateQuery l reset h
        obtain ⟨tail, ht⟩ := passEvents_begin env org user dateQuery
          ⟨env.sleep (env.searchIssues l.world (searchQuery org user dateQuery) l.page 100).2
            (timeSince (env.now
              (env.searchIssues l.world (searchQuery org user dateQuery) l.page 100).2) reset),
            l.page, l.pullRequests,
            l.events ++ [Event.searchIssues (searchQuery org user dateQuery) l.page 100] ++
              [Event.sleep (timeSince (env.now
                (env.searchIssues l.world (searchQuery org user dateQuery) l.page 100).2)
                  reset)]⟩
        exact ⟨timeSince (env.now
          (env.searchIssues l.world (searchQuery org user dateQuery) l.page 100).2) reset,
          _, hb, rfl, rfl, by simp, tail, by rw [ht]; simp⟩
      | abuseRateLimit retryAfter =>
        have hb := getPullRequestsBody_abuse env org user dateQuery l retryAfter h
        obtain ⟨tail, ht⟩ := passEvents_begin env org user dateQuery
          ⟨env.sleep (env.searchIssues l.world (searchQuery org user dateQuery) l.page 100).2
            (30 * second), l.page, l.pullRequests,
            l.events ++ [Event.searchIssues (searchQuery org user dateQuery) l.page 100] ++
              [Event.sleep (30 * second)]⟩
        exact ⟨30 * second, _, hb, rfl, rfl, by simp, tail, by rw [ht]; simp⟩
      | other m => rw [h] at hretry; simp [isRetry] at hretry
    | ok ps => rw [h] at hretry; simp [isRetry] at hretry
  · obtain ⟨r, rc, hr, hrc, he, hp⟩ := script_retry org user dateQuery script 1 [] [] []
      clock clock fuel fuel hfuel
      (lt_of_le_of_lt (List.length_filter_le _ _) hfuel)
    exact ⟨r, rc, hr, hrc, he, hp, fun h => he.trans h⟩

/-- The example of C3: a script with three failures around two pages. Pages 1, 1, 2, 2, 2
are requested and the two issues come back once each, as without the failures. -/
theorem retry_same_page_witness :
    ((∃ d t, getPullRequestsBody scriptRemote "acme" "" ""
        (pageLoopStart ⟨bumpyScript, 0⟩) = Step.next t ∧
      t.page = (pageLoopStart (⟨bumpyScript, 0⟩ : ScriptWorld)).page ∧
      t.pullRequests = (pageLoopStart (⟨bumpyScript, 0⟩ : ScriptWorld)).pullRequests ∧
      t.events = (pageLoopStart (⟨bumpyScript, 0⟩ : ScriptWorld)).events ++
        [Event.searchIssues (searchQuery "acme" "" "")
          (pageLoopStart (⟨bumpyScript, 0⟩ : ScriptWorld)).page 100, Event.sleep d] ∧
      ∃ tail, passEvents (getPullRequestsBody scriptRemote "acme" "" "" t) =
        (pageLoopStart (⟨bumpyScript, 0⟩ : ScriptWorld)).events ++
          [Event.searchIssues (searchQuery "acme" "" "")
            (pageLoopStart (⟨bumpyScript, 0⟩ : ScriptWorld)).page 100,
          Event.sleep d, Event.searchIssues (searchQuery "acme" "" "")
            (pageLoopStart (⟨bumpyScript, 0⟩ : ScriptWorld)).page 100] ++ tail) ∧
    ∃ r rc, getPullRequests scriptRemote 6 "acme" "" "" ⟨bumpyScript, 0⟩ = some r ∧
      getPullRequests scriptRemote 6 "acme" "" ""
        ⟨bumpyScript.filter (fun x => !isRetry x), 0⟩ = some rc ∧
      r.err = rc.err ∧ r.pullRequests = rc.pullRequests ∧ (rc.err = none → r.err = none)) ∧
    (getPullRequests scriptRemote 6 "acme" "" "" ⟨bumpyScript, 0⟩).map
      (fun r => (r.pullRequests.map (fun p => p.number), r.err, requestedPages r.events)) =
      some ([some 1, some 2], none, [1, 1, 2, 2, 2]) ∧
    (getPullRequests scriptRemote 6 "acme" "" ""
        ⟨bumpyScript.filter (fun x => !isRetry x), 0⟩).map
      (fun r => (r.pullRequests.map (fun p => p.number), r.err, requestedPages r.events)) =
      some ([some 1, some 2], none, [1, 2]) :=
  ⟨retry_same_page scriptRemote "acme" "" "" (pageLoopStart ⟨bumpyScript, 0⟩) (by decide)
    bumpyScript 0 6 (by decide), by decide, by decide⟩

/-! ## Errors that are not retried -/

theorem getPullRequests_fatal {σ : Type} (env : Remote σ) (fuel : Nat)
    (org user dateQuery : String) (w : σ) (k : Nat) (l : PageLoop σ) (m : String)
    (hreach : passes (fun l => some (getPullRequestsBody env org user dateQuery l)) k
      (pageLoopStart w) = some l)
    (hfail : (env.searchIssues l.world (searchQuery org user dateQuery) l.page 100).1 =
      Except.error (ApiError.other m))
    (hfuel : k < fuel) :
    getPullRequests env fuel org user dateQuery w =
      some ⟨l.pullRequests, some (ApiError.other m),
        (env.searchIssues l.world (searchQuery org user dateQuery) l.page 100).2,
        l.events ++ [Event.searchIssues (searchQuery org user dateQuery) l.page 100]⟩ := by
  obtain ⟨n, rfl⟩ : ∃ n, fuel = k + (n + 1) := ⟨fuel - k - 1, by omega⟩
  unfold getPullRequests
  rw [loop_passes _ k (n + 1) _ l hreach]
  exact loop_done _ n l _ (congrArg some (getPullRequestsBody_other env org user dateQuery l m hfail))

theorem pullsExecute_of_retrieve_error {σ : Type} (env : Remote σ)
    (userOrder repoOrder : List String → List String) (fuel : Nat)
    (org user dateRange : String) (includeReviews : Bool) (w : σ) (c : Collected σ)
    (e : ApiError) (hc : retrieve env fuel org user dateRange w = some (Retrieved.collected c))
    (he : c.err = some e) :
    pullsExecute env userOrder repoOrder fuel org user dateRange includeReviews w =
      some ⟨Status.failed (Failure.api e), c.world, c.events⟩ := by
  simp only [pullsExecute, hc, he]

theorem dateLoop_fatal {σ : Type} (getPR : String → σ → Option (Fetched σ)) (fuel : Nat)
    (dateFrom dateTo : Time) (w0 : σ) (j : Nat) (dl : DateLoop σ) (r : Fetched σ) (e : ApiError)
    (hreach : passes (dateLoopBody getPR dateTo) j (dateLoopStart w0 dateFrom) = some dl)
    (hfuel : j < fuel) (hafter : timeAfter dl.dateFrom dateTo = false)
    (hnew : timeFormat dl.dateFrom ∉ dl.controlProcessedDate)
    (hcall : getPR (timeFormat dl.dateFrom) dl.world = some r) (herr : r.err = some e) :
    dateLoop getPR fuel dateFrom dateTo w0 =
      some ⟨dl.pullRequests, some e, r.world, dl.calls ++ [timeFormat dl.dateFrom],
        dl.events ++ r.events⟩ := by
  obtain ⟨n, rfl⟩ : ∃ n, fuel = j + (n + 1) := ⟨fuel - j - 1, by omega⟩
  unfold dateLoop
  rw [loop_passes _ j (n + 1) _ dl hreach]
  refine loop_done _ n dl _ ?_
  simp only [dateLoopBody, hafter, hnew, hcall, herr, if_false, Bool.false_eq_true]

/-- C7: let a request of `getPullRequests`, made after `k` passes that went on, be
answered by an error that is neither a primary-rate-limit nor an abuse-rate-limit
error. Then (1) `getPullRequests` returns that error at once: the failed request is its
last event; (2) if this was the single call of a run of `pullsExecute` without date
range, `pullsExecute` returns that same error and no report; (3) if this was the call
for a day of the date loop, reached after `j` passes of that loop, `pullsExecute`
returns that same error and no report, its last event being the failed request; the
issues collected before are part of neither result. -/
theorem fatal_error_propagates {σ : Type} (env : Remote σ)
    (userOrder repoOrder : List String → List String) (fuel : Nat)
    (org user dateQuery : String) (includeReviews : Bool) (w : σ) (k : Nat) (l : PageLoop σ)
    (m : String)
    (hreach : passes (fun l => some (getPullRequestsBody env org user dateQuery l)) k
      (pageLoopStart w) = some l)
    (hfail : (env.searchIssues l.world (searchQuery org user dateQuery) l.page 100).1 =
      Except.error (ApiError.other m))
    (hfuel : k < fuel) :
    getPullRequests env fuel org user dateQuery w =
      some ⟨l.pullRequests, some (ApiError.other m),
        (env.searchIssues l.world (searchQuery org user dateQuery) l.page 100).2,
        l.events ++ [Event.searchIssues (searchQuery org user dateQuery) l.page 100]⟩ ∧
    (dateQuery = "" →
      pullsExecute env userOrder repoOrder fuel org user "" includeReviews w =
        some ⟨Status.failed (Failure.api (ApiError.other m)),
          (env.searchIssues l.world (searchQuery org user dateQuery) l.page 100).2,
          l.events ++ [Event.searchIssues (searchQuery org user dateQuery) l.page 100]⟩) ∧
    (∀ (dateRange first second : String) (rest : List String) (dateFrom dateTo : Time)
        (w0 : σ) (j : Nat) (dl : DateLoop σ),
      dateRange ≠ "" → stringsSplit dateRange ".." = first :: second :: rest →
      timeParse first = some dateFrom → timeParse second = some dateTo →
      passes (dateLoopBody (getPullRequests env fuel org user) dateTo) j
        (dateLoopStart w0 dateFrom) = some dl →
      j < fuel → timeAfter dl.dateFrom dateTo = false →
      timeFormat dl.dateFrom ∉ dl.controlProcessedDate →
      timeFormat dl.dateFrom = dateQuery → dl.world = w →
      pullsExecute env userOrder repoOrder fuel org user dateRange includeReviews w0 =
        some ⟨Status.failed (Failure.api (ApiError.other m)),
          (env.searchIssues l.world (searchQuery org user dateQuery) l.page 100).2,
          dl.events ++ (l.events ++
            [Event.searchIssues (searchQuery org user dateQuery) l.page 100])⟩) := by
  have hget := getPullRequests_fatal env fuel org user dateQuery w k l m hreach hfail hfuel
  refine ⟨hget, ?_, ?_⟩
  · intro hq
    subst hq
    simp only [pullsExecute, retrieve, ne_eq, not_true_eq_false, if_false, hget,
      Option.map_some']
  · intro dateRange first second rest dateFrom dateTo w0 j dl hne hsplit hfrom hto hdl hj
      hafter hnew hq hw
    subst hq hw
    have hloop := dateLoop_fatal (getPullRequests env fuel org user) fuel dateFrom dateTo w0 j
      dl _ _ hdl hj hafter hnew hget rfl
    simp only [pullsExecute, retrieve, hne, ne_eq, not_false_eq_true, if_true, hsplit,
      List.getElem?_cons_zero, List.getElem?_cons_succ, hfrom, hto, hloop, Option.map_some']

/-- The example of C7: the second page request is answered by the error `boom`. Without
date range and with the range 2024-01-01..2024-01-02 alike, `pullsExecute` returns
`boom` after the two requests, and the issue of the first page is in no report. -/
theorem fatal_error_propagates_witness :
    pullsExecute scriptRemote id id 2 "acme" "" "" false ⟨fatalScript, 0⟩ =
      some ⟨Status.failed (Failure.api (ApiError.other "boom")), ⟨[], 0⟩,
        [Event.searchIssues (searchQuery "acme" "" "") 1 100,
         Event.searchIssues (searchQuery "acme" "" "") 2 100]⟩ ∧
    pullsExecute scriptRemote id id 2 "acme" "" "2024-01-01..2024-01-02" false
        ⟨fatalScript, 0⟩ =
      some ⟨Status.failed (Failure.api (ApiError.other "boom")), ⟨[], 0⟩,
        [Event.searchIssues (searchQuery "acme" "" "2024-01-01") 1 100,
         Event.searchIssues (searchQuery "acme" "" "2024-01-01") 2 100]⟩ :=
  ⟨(fatal_error_propagates scriptRemote id id 2 "acme" "" "" false ⟨fatalScript, 0⟩ 1
      (fatalState "") "boom" rfl rfl (by decide)).2.1 rfl,
   (fatal_error_propagates scriptRemote id id 2 "acme" "" "2024-01-01" false
      ⟨fatalScript, 0⟩ 1 (fatalState "2024-01-01") "boom" rfl rfl (by decide)).2.2
      "2024-01-01..2024-01-02" "2024-01-01" "2024-01-02" [] (19723 * aDay) (19724 * aDay)
      ⟨fatalScript, 0⟩ 0 (dateLoopStart ⟨fatalScript, 0⟩ (19723 * aDay))
      (by decide) (by decide) (by decide) (by decide) rfl (by decide) (by decide) (by decide)
      (by decide) rfl⟩

/-! ## The sleep after a primary rate limit -/

theorem timeSince_eq (now t : Time) (h1 : minDuration ≤ now - t) (h2 : now - t ≤ maxDuration) :
    timeSince now t = now - t := by
  unfold timeSince timeSub
  have h3 : ¬ now - t > maxDuration := not_lt.mpr h2
  have h4 : ¬ now - t < minDuration := not_lt.mpr h1
  simp only [h3, h4, if_false]

theorem getPullRequestReviews_rateLimit {σ : Type} (env : Remote σ) (fuel : Nat)
    (org repo : String) (number : Int) (w : σ) (reset : Time)
    (h : (env.listReviews w org repo number 100).1 = Except.error (ApiError.rateLimit reset)) :
    getPullRequestReviews env (fuel + 1) org repo number w =
      (getPullRequestReviews env fuel org repo number
        (env.sleep (env.listReviews w org repo number 100).2
          (timeSince (env.now (env.listReviews w org repo number 100).2) reset))).map
        (fun r => ⟨r.reviews, r.err, r.world,
          Event.listReviews org repo number 100 ::
            Event.sleep (timeSince (env.now (env.listReviews w org repo number 100).2) reset) ::
            r.events⟩) := by
  simp only [getPullRequestReviews, h]

/-- C9 fails on the code: with the clock at 1000 s and a primary-rate-limit failure whose
reset time is 1060 s, 60 s ahead, `getPullRequests` and `getPullRequestReviews` pass
-60 s to `time.Sleep`, which is now - T and not T - now, and repeat the request with the
clock still at 1000 s; with a reset time of 940 s, 60 s in the past, they pass +60 s and
the clock is at 1060 s when they return. -/
theorem rate_limit_sleep_sign :
    (getPullRequests scriptRemote 2 "acme" "" ""
        ⟨[Except.error (ApiError.rateLimit 1060000000000), Except.ok ⟨[], 0⟩],
          1000000000000⟩).map (fun r => (r.events, r.world.clock)) =
      some ([Event.searchIssues (searchQuery "acme" "" "") 1 100,
        Event.sleep (-60000000000),
        Event.searchIssues (searchQuery "acme" "" "") 1 100], 1000000000000) ∧
    (getPullRequestReviews reviewRemote 2 "acme" "repoA" 7
        ⟨[Except.error (ApiError.rateLimit 1060000000000), Except.ok []],
          1000000000000⟩).map (fun r => (r.events, r.world.clock)) =
      some ([Event.listReviews "acme" "repoA" 7 100, Event.sleep (-60000000000),
        Event.listReviews "acme" "repoA" 7 100], 1000000000000) ∧
    (getPullRequests scriptRemote 2 "acme" "" ""
        ⟨[Except.error (ApiError.rateLimit 940000000000), Except.ok ⟨[], 0⟩],
          1000000000000⟩).map (fun r => (r.events, r.world.clock)) =
      some ([Event.searchIssues (searchQuery "acme" "" "") 1 100,
        Event.sleep 60000000000,
        Event.searchIssues (searchQuery "acme" "" "") 1 100], 1060000000000) ∧
    (getPullRequestReviews reviewRemote 2 "acme" "repoA" 7
        ⟨[Except.error (ApiError.rateLimit 940000000000), Except.ok []],
          1000000000000⟩).map (fun r => (r.events, r.world.clock)) =
      some ([Event.listReviews "acme" "repoA" 7 100, Event.sleep 60000000000,
        Event.listReviews "acme" "repoA" 7 100], 1060000000000) ∧
    (1060000000000 : Time) - 1000000000000 ≠ -60000000000 := by
  decide

/-! ## The calendar -/

theorem aDay_eq : aDay = 86400000000000 := by decide

theorem cascade (d n400 d1 n100 d2 n4 d3 n1 doy y : Int)
    (h400 : n400 = d / 146097) (hd1 : d1 = d - 146097 * n400)
    (h100 : n100 = min (d1 / 36524) 3) (hd2 : d2 = d1 - 36524 * n100)
    (h4 : n4 = d2 / 1461) (hd3 : d3 = d2 - 1461 * n4)
    (h1 : n1 = min (d3 / 365) 3) (hdoy : doy = d3 - 365 * n1)
    (hy : y = 400 * n400 + 100 * n100 + 4 * n4 + n1) :
    365 * y + y / 4 - y / 100 + y / 400 + doy = d ∧ 0 ≤ doy ∧ doy ≤ 365 := by
  have b1 : 0 ≤ d1 ∧ d1 ≤ 146096 := by omega
  have b100 : 0 ≤ n100 ∧ n100 ≤ 3 := by omega
  have b2 : 0 ≤ d2 ∧ d2 ≤ 36524 := by omega
  have b4 : 0 ≤ n4 ∧ n4 ≤ 24 := by omega
  have b3 : 0 ≤ d3 ∧ d3 ≤ 1460 := by omega
  have bn1 : 0 ≤ n1 ∧ n1 ≤ 3 := by omega
  have bdoy : 0 ≤ doy ∧ doy ≤ 365 := by omega
  have e4 : y / 4 = 100 * n400 + 25 * n100 + n4 := by omega
  have e100 : y / 100 = 4 * n400 + n100 := by omega
  have e400 : y / 400 = n400 := by omega
  refine ⟨?_, bdoy.1, bdoy.2⟩
  omega

theorem civilFromDays_shape (z : Int) : ∃ y doy : Int,
    365 * y + y / 4 - y / 100 + y / 400 + doy = z + 719468 ∧ 0 ≤ doy ∧ doy ≤ 365 ∧
    civilFromDays z =
      (if (if (5 * doy + 2) / 153 < 10 then (5 * doy + 2) / 153 + 3
          else (5 * doy + 2) / 153 - 9) ≤ 2 then y + 1 else y,
        if (5 * doy + 2) / 153 < 10 then (5 * doy + 2) / 153 + 3 else (5 * doy + 2) / 153 - 9,
        doy - (153 * ((5 * doy + 2) / 153) + 2) / 5 + 1) := by
  obtain ⟨h1, h2, h3⟩ := cascade (z + 719468) _ _ _ _ _ _ _ _ _ rfl rfl rfl rfl rfl rfl rfl rfl rfl
  exact ⟨_, _, h1, h2, h3, rfl⟩

theorem daysFromCivil_civilFromDays (z : Int) :
    daysFromCivil (civilFromDays z).1 (civilFromDays z).2.1 (civilFromDays z).2.2 = z := by
  obtain ⟨y, doy, h1, h2, h3, h4⟩ := civilFromDays_shape z
  rw [h4]
  simp only [daysFromCivil]
  generalize hmp : (5 * doy + 2) / 153 = mp
  have hb : 0 ≤ mp ∧ mp ≤ 11 := by omega
  by_cases hlt : mp < 10
  · have e1 : ¬ (mp + 3 ≤ 2) := by omega
    have e2 : mp + 3 > 2 := by omega
    simp only [hlt, if_true, e1, if_false, e2, Int.add_sub_cancel]
    omega
  · have e1 : (mp - 9 ≤ 2) := by omega
    have e2 : ¬ (mp - 9 > 2) := by omega
    simp only [hlt, if_true, e1, if_false, e2, Int.add_sub_cancel, Int.sub_add_cancel]
    omega

theorem civilFromDays_bounds (z : Int) (h0 : -719528 ≤ z) (h1 : z ≤ 2932896) :
    0 ≤ (civilFromDays z).1 ∧ (civilFromDays z).1 ≤ 9999 ∧
    1 ≤ (civilFromDays z).2.1 ∧ (civilFromDays z).2.1 ≤ 12 ∧
    1 ≤ (civilFromDays z).2.2 ∧ (civilFromDays z).2.2 ≤ 31 := by
  obtain ⟨y, doy, e, hd0, hd1, h4⟩ := civilFromDays_shape z
  rw [h4]
  generalize hmp : (5 * doy + 2) / 153 = mp
  have hb : 0 ≤ mp ∧ mp ≤ 11 := by omega
  have hy : -1 ≤ y ∧ y ≤ 9999 := by omega
  have hday : 0 ≤ doy - (153 * mp + 2) / 5 ∧ doy - (153 * mp + 2) / 5 ≤ 30 := by omega
  have hlo : y = -1 → 10 ≤ mp := by
    intro hy1; subst hy1; omega
  have hhi : y = 9999 → mp < 10 := by
    intro hy1; subst hy1; omega
  by_cases hlt : mp < 10
  · have e1 : ¬ (mp + 3 ≤ 2) := by omega
    simp only [hlt, if_true, e1, if_false]
    refine ⟨?_, ?_, ?_, ?_, ?_, ?_⟩ <;> omega
  · have e1 : (mp - 9 ≤ 2) := by omega
    simp only [hlt, if_true, e1, if_false]
    refine ⟨?_, ?_, ?_, ?_, ?_, ?_⟩ <;> omega

theorem daysFromCivil_bounds (year month day : Int) (hy0 : 0 ≤ year) (hy1 : year ≤ 9999)
    (hm0 : 1 ≤ month) (hm1 : month ≤ 12) (hd0 : 1 ≤ day) (hd1 : day ≤ 31) :
    -719528 ≤ daysFromCivil year month day ∧ daysFromCivil year month day ≤ 2932896 := by
  simp only [daysFromCivil]
  by_cases hm : month ≤ 2
  · have e2 : ¬ month > 2 := by omega
    simp only [hm, if_true, e2, if_false]
    constructor <;> omega
  · have e2 : month > 2 := by omega
    simp only [hm, if_false, e2, if_true]
    constructor <;> omega

/-! ## Printing and reading dates -/

theorem digitChar_toNat (n : Nat) : (digitChar n).toNat = 48 + n % 10 := by
  unfold digitChar
  have h : n % 10 < 10 := Nat.mod_lt _ (by decide)
  interval_cases (n % 10) <;> rfl

theorem digitChar_inj (a b : Nat) (h : digitChar a = digitChar b) : a % 10 = b % 10 := by
  have h1 := digitChar_toNat a
  have h2 := digitChar_toNat b
  rw [h] at h1
  omega

theorem appendInt_four (x : Int) (h0 : 0 ≤ x) (h1 : x ≤ 9999) :
    appendInt x 4 = [digitChar (x.natAbs / 1000), digitChar (x.natAbs / 100),
      digitChar (x.natAbs / 10), digitChar x.natAbs] := by
  have hu : x.natAbs < 10000 := by omega
  have hneg : ¬ x < 0 := by omega
  simp [appendInt, hu, hneg]

theorem appendInt_two (x : Int) (h0 : 0 ≤ x) (h1 : x ≤ 99) :
    appendInt x 2 = [digitChar (x.natAbs / 10), digitChar x.natAbs] := by
  have hu : x.natAbs < 100 := by omega
  have hneg : ¬ x < 0 := by omega
  simp [appendInt, hu, hneg]

theorem appendInt_four_inj (x y : Int) (hx0 : 0 ≤ x) (hx1 : x ≤ 9999) (hy0 : 0 ≤ y)
    (hy1 : y ≤ 9999) (h : appendInt x 4 = appendInt y 4) : x = y := by
  rw [appendInt_four x hx0 hx1, appendInt_four y hy0 hy1] at h
  simp only [List.cons.injEq, and_true] at h
  obtain ⟨h1, h2, h3, h4⟩ := h
  have e1 := digitChar_inj _ _ h1
  have e2 := digitChar_inj _ _ h2
  have e3 := digitChar_inj _ _ h3
  have e4 := digitChar_inj _ _ h4
  omega

theorem appendInt_two_inj (x y : Int) (hx0 : 0 ≤ x) (hx1 : x ≤ 99) (hy0 : 0 ≤ y)
    (hy1 : y ≤ 99) (h : appendInt x 2 = appendInt y 2) : x = y := by
  rw [appendInt_two x hx0 hx1, appendInt_two y hy0 hy1] at h
  simp only [List.cons.injEq, and_true] at h
  obtain ⟨h1, h2⟩ := h
  have e1 := digitChar_inj _ _ h1
  have e2 := digitChar_inj _ _ h2
  omega

theorem timeFormat_inj (z1 z2 : Int) (h1 : -719528 ≤ z1) (h1' : z1 ≤ 2932896)
    (h2 : -719528 ≤ z2) (h2' : z2 ≤ 2932896)
    (h : timeFormat (z1 * aDay) = timeFormat (z2 * aDay)) : z1 = z2 := by
  have hd1 : z1 * aDay / aDay = z1 := by rw [aDay_eq]; omega
  have hd2 : z2 * aDay / aDay = z2 := by rw [aDay_eq]; omega
  replace h := congrArg String.data h
  simp only [timeFormat, hd1, hd2] at h
  obtain ⟨a0, a1, a2, a3, a4, a5⟩ := civilFromDays_bounds z1 h1 h1'
  obtain ⟨b0, b1, b2, b3, b4, b5⟩ := civilFromDays_bounds z2 h2 h2'
  rw [appendInt_four _ a0 a1, appendInt_four _ b0 b1, appendInt_two _ (by omega) (by omega),
    appendInt_two _ (by omega) (by omega), appendInt_two _ (by omega) (by omega),
    appendInt_two _ (by omega) (by omega)] at h
  simp only [List.cons_append, List.nil_append, List.cons.injEq, and_true, true_and] at h
  obtain ⟨e1, e2, e3, e4, e5, e6, e7, e8⟩ := h
  have f1 := digitChar_inj _ _ e1
  have f2 := digitChar_inj _ _ e2
  have f3 := digitChar_inj _ _ e3
  have f4 := digitChar_inj _ _ e4
  have f5 := digitChar_inj _ _ e5
  have f6 := digitChar_inj _ _ e6
  have f7 := digitChar_inj _ _ e7
  have f8 := digitChar_inj _ _ e8
  have ey : (civilFromDays z1).1 = (civilFromDays z2).1 := by omega
  have em : (civilFromDays z1).2.1 = (civilFromDays z2).2.1 := by omega
  have ed : (civilFromDays z1).2.2 = (civilFromDays z2).2.2 := by omega
  have r1 := daysFromCivil_civilFromDays z1
  have r2 := daysFromCivil_civilFromDays z2
  rw [ey, em, ed] at r1
  exact r1.symm.trans r2

theorem digitValue_bounds (c : Char) (h : isDigit c = true) :
    0 ≤ digitValue c ∧ digitValue c ≤ 9 := by
  simp only [isDigit, Bool.and_eq_true, decide_eq_true_eq] at h
  unfold digitValue
  omega

theorem daysIn_le (month year : Int) : daysIn month year ≤ 31 := by
  unfold daysIn
  split_ifs <;> decide

theorem timeParse_bounds (value : String) (t : Time) (h : timeParse value = some t) :
    ∃ z : Int, t = z * aDay ∧ -719528 ≤ z ∧ z ≤ 2932896 := by
  unfold timeParse at h
  split at h
  · rename_i y1 y2 y3 y4 s1 m1 m2 s2 d1 d2 _
    split_ifs at h with hdig
    dsimp only at h
    split_ifs at h with hmonth hday
    simp only [Bool.and_eq_true] at hdig
    obtain ⟨⟨⟨⟨⟨⟨⟨⟨⟨hy1, hy2⟩, hy3⟩, hy4⟩, _⟩, hm1⟩, hm2⟩, _⟩, hd1⟩, hd2⟩ := hdig
    have b1 := digitValue_bounds y1 hy1
    have b2 := digitValue_bounds y2 hy2
    have b3 := digitValue_bounds y3 hy3
    have b4 := digitValue_bounds y4 hy4
    have b5 := digitValue_bounds m1 hm1
    have b6 := digitValue_bounds m2 hm2
    have b7 := digitValue_bounds d1 hd1
    have b8 := digitValue_bounds d2 hd2
    have hle := daysIn_le (10 * digitValue m1 + digitValue m2)
      (1000 * digitValue y1 + 100 * digitValue y2 + 10 * digitValue y3 + digitValue y4)
    simp only [Option.some.injEq] at h
    refine ⟨_, h.symm, ?_⟩
    exact daysFromCivil_bounds _ _ _ (by omega) (by omega) (by omega) (by omega) (by omega)
      (by omega)
  · simp at h

/-! ## The date loop -/

theorem passes_succ_end {S R : Type} (body : S → Option (Step S R)) (k : Nat) (s t u : S)
    (h : passes body k s = some t) (hb : body t = some (Step.next u)) :
    passes body (k + 1) s = some u := by
  induction k generalizing s with
  | zero =>
    simp only [passes, Option.some.injEq] at h
    subst h
    simp only [passes, hb]
  | succ k ih =>
    simp only [passes] at h ⊢
    cases hs : body s with
    | none => simp [hs] at h
    | some st =>
      cases st with
      | next v =>
        simp only [hs] at h ⊢
        have := ih v h
        simpa only [passes] using this
      | done q => simp [hs] at h

theorem timeAfter_true_iff (t u : Int) : timeAfter t u = true ↔ u < t := by
  simp [timeAfter]

theorem timeAfter_false_iff (t u : Int) : timeAfter t u = false ↔ t ≤ u := by
  simp [timeAfter]

theorem length_daysBetween (z0 z1 : Int) :
    (daysBetween (z0 * aDay) (z1 * aDay)).length = (z1 - z0 + 1).toNat := by
  simp only [daysBetween, List.length_map, List.length_range]
  congr 1
  rw [aDay_eq]
  omega

theorem date_passes {σ : Type} (getPR : String → σ → Option (Fetched σ))
    (hok : ∀ q w, ∃ r, getPR q w = some r ∧ r.err = none) (z0 z1 : Int)
    (h0 : -719528 ≤ z0) (h1 : z1 ≤ 2932896) (w : σ) :
    ∀ i : Nat, i ≤ (z1 - z0 + 1).toNat →
      ∃ dl, passes (dateLoopBody getPR (z1 * aDay)) i (dateLoopStart w (z0 * aDay)) = some dl ∧
        dl.dateFrom = z0 * aDay + (i : Int) * aDay ∧
        dl.controlProcessedDate =
          (List.range i).map (fun (j : Nat) => timeFormat (z0 * aDay + (j : Int) * aDay)) ∧
        dl.calls = (List.range i).map (fun (j : Nat) => timeFormat (z0 * aDay + (j : Int) * aDay)) ∧
        (i = 0 → dl.pullRequests = []) := by
  intro i
  induction i with
  | zero =>
    intro _
    exact ⟨_, rfl, by simp [dateLoopStart], rfl, rfl, fun _ => rfl⟩
  | succ i ih =>
    intro hi
    obtain ⟨dl, hp, hd, hproc, hcalls, _⟩ := ih (by omega)
    have hafter : timeAfter dl.dateFrom (z1 * aDay) = false := by
      rw [timeAfter_false_iff, hd, aDay_eq]
      omega
    have hnew : timeFormat dl.dateFrom ∉ dl.controlProcessedDate := by
      rw [hproc, hd]
      intro hmem
      obtain ⟨j, hj, hjeq⟩ := List.mem_map.mp hmem
      have hj' : j < i := List.mem_range.mp hj
      have e1 : z0 * aDay + (j : Int) * aDay = (z0 + j) * aDay := by ring
      have e2 : z0 * aDay + (i : Int) * aDay = (z0 + i) * aDay := by ring
      rw [e1, e2] at hjeq
      have := timeFormat_inj (z0 + j) (z0 + i) (by omega) (by omega) (by omega) (by omega) hjeq
      omega
    obtain ⟨r, hr, herr⟩ := hok (timeFormat dl.dateFrom) dl.world
    have hbody : dateLoopBody getPR (z1 * aDay) dl =
        some (Step.next ⟨r.world, timeAdd dl.dateFrom aDay,
          setAdd dl.controlProcessedDate (timeFormat dl.dateFrom),
          dl.pullRequests ++ r.pullRequests, dl.calls ++ [timeFormat dl.dateFrom],
          dl.events ++ r.events⟩) := by
      simp only [dateLoopBody, hafter, hnew, hr, herr, if_false, Bool.false_eq_true]
    refine ⟨_, passes_succ_end _ i _ dl _ hp hbody, ?_, ?_, ?_, ?_⟩
    · simp only [timeAdd, hd]
      push_cast
      ring
    · simp only [setAdd, hnew, if_false]
      rw [hproc, hd, List.range_succ, List.map_append]
      rfl
    · simp only []
      rw [hcalls, hd, List.range_succ, List.map_append]
      rfl
    · intro h; omega

theorem date_loop_run {σ : Type} (getPR : String → σ → Option (Fetched σ))
    (hok : ∀ q w, ∃ r, getPR q w = some r ∧ r.err = none) (z0 z1 : Int)
    (h0 : -719528 ≤ z0) (h1 : z1 ≤ 2932896) (w : σ) (fuel : Nat)
    (hfuel : (daysBetween (z0 * aDay) (z1 * aDay)).length < fuel) :
    ∃ c, dateLoop getPR fuel (z0 * aDay) (z1 * aDay) w = some c ∧ c.err = none ∧
      c.calls = (daysBetween (z0 * aDay) (z1 * aDay)).map timeFormat ∧
      (z1 < z0 → c.pullRequests = []) := by
  rw [length_daysBetween] at hfuel
  obtain ⟨dl, hp, hd, _, hcalls, hnil⟩ := date_passes getPR hok z0 z1 h0 h1 w
    (z1 - z0 + 1).toNat (le_refl _)
  have hafter : timeAfter dl.dateFrom (z1 * aDay) = true := by
    rw [timeAfter_true_iff, hd, aDay_eq]
    omega
  have hbody : dateLoopBody getPR (z1 * aDay) dl =
      some (Step.done ⟨dl.pullRequests, none, dl.world, dl.calls, dl.events⟩) := by
    simp only [dateLoopBody, hafter, if_true]
  obtain ⟨n, rfl⟩ : ∃ n, fuel = (z1 - z0 + 1).toNat + (n + 1) :=
    ⟨fuel - (z1 - z0 + 1).toNat - 1, by omega⟩
  refine ⟨⟨dl.pullRequests, none, dl.world, dl.calls, dl.events⟩, ?_, rfl, ?_, ?_⟩
  · unfold dateLoop
    rw [loop_passes _ _ (n + 1) _ dl hp]
    exact loop_done _ n dl _ hbody
  · simp only [hcalls, daysBetween, List.map_map]
    have hlen : ((z1 * aDay - z0 * aDay) / aDay + 1).toNat = (z1 - z0 + 1).toNat := by
      rw [aDay_eq]; omega
    rw [hlen]
    rfl
  · intro hlt
    exact hnil (by omega)

/-! ## Reading back a printed date -/

theorem cascade_inv (D a b c e doy n400 d1 n100 d2 n4 d3 n1 doy2 : Int)
    (hD : D = 146097 * a + 36524 * b + 1461 * c + 365 * e + doy)
    (hb : 0 ≤ b ∧ b ≤ 3) (hc : 0 ≤ c ∧ c ≤ 24) (he : 0 ≤ e ∧ e ≤ 3)
    (hdoy : 0 ≤ doy ∧ doy ≤ 365) (hleap : doy = 365 → e = 3 ∧ (c ≠ 24 ∨ b = 3))
    (h400 : n400 = D / 146097) (hd1 : d1 = D - 146097 * n400)
    (h100 : n100 = min (d1 / 36524) 3) (hd2 : d2 = d1 - 36524 * n100)
    (h4 : n4 = d2 / 1461) (hd3 : d3 = d2 - 1461 * n4)
    (h1 : n1 = min (d3 / 365) 3) (hdoy2 : doy2 = d3 - 365 * n1) :
    n400 = a ∧ n100 = b ∧ n4 = c ∧ n1 = e ∧ doy2 = doy := by
  have hl : doy ≤ 364 ∨ (doy = 365 ∧ e = 3 ∧ (c ≠ 24 ∨ b = 3)) := by
    by_cases h : doy = 365
    · exact Or.inr ⟨h, hleap h⟩
    · left; omega
  have e400 : n400 = a := by omega
  have ed1 : d1 = 36524 * b + 1461 * c + 365 * e + doy := by omega
  have e100 : n100 = b := by
    rcases hl with hl | ⟨h1, h2, h3 | h3⟩ <;> omega
  have ed2 : d2 = 1461 * c + 365 * e + doy := by omega
  have e4 : n4 = c := by omega
  have ed3 : d3 = 365 * e + doy := by omega
  have e1 : n1 = e := by
    rcases hl with hl | ⟨h1, h2, _⟩ <;> omega
  exact ⟨e400, e100, e4, e1, by omega⟩

theorem civilFromDays_of_parts (Y doy a b c e : Int)
    (hY : Y = 400 * a + 100 * b + 4 * c + e)
    (hb : 0 ≤ b ∧ b ≤ 3) (hc : 0 ≤ c ∧ c ≤ 24) (he : 0 ≤ e ∧ e ≤ 3)
    (hdoy : 0 ≤ doy ∧ doy ≤ 365) (hleap : doy = 365 → e = 3 ∧ (c ≠ 24 ∨ b = 3)) :
    civilFromDays (146097 * a + 36524 * b + 1461 * c + 365 * e + doy - 719468) =
      (if (if (5 * doy + 2) / 153 < 10 then (5 * doy + 2) / 153 + 3
          else (5 * doy + 2) / 153 - 9) ≤ 2 then Y + 1 else Y,
        if (5 * doy + 2) / 153 < 10 then (5 * doy + 2) / 153 + 3 else (5 * doy + 2) / 153 - 9,
        doy - (153 * ((5 * doy + 2) / 153) + 2) / 5 + 1) := by
  obtain ⟨h1, h2, h3, h4, h5⟩ := cascade_inv
    (146097 * a + 36524 * b + 1461 * c + 365 * e + doy - 719468 + 719468) a b c e doy
    _ _ _ _ _ _ _ _ (by ring) hb hc he hdoy hleap rfl rfl rfl rfl rfl rfl rfl rfl
  simp only [civilFromDays]
  rw [h5, h4, h3, h2, h1, ← hY]

theorem isLeap_iff (y : Int) :
    isLeap y = true ↔ y % 4 = 0 ∧ (y % 100 ≠ 0 ∨ y % 400 = 0) := by
  simp [isLeap]

theorem civilFromDays_daysFromCivil (y m d : Int) (hm : 1 ≤ m ∧ m ≤ 12)
    (hd : 1 ≤ d ∧ d ≤ daysIn m y) : civilFromDays (daysFromCivil y m d) = (y, m, d) := by
  obtain ⟨Y, hY⟩ : ∃ Y : Int, Y = if m ≤ 2 then y - 1 else y := ⟨_, rfl⟩
  obtain ⟨mp, hmp⟩ : ∃ mp : Int, mp = if m > 2 then m - 3 else m + 9 := ⟨_, rfl⟩
  obtain ⟨a, ha⟩ : ∃ a : Int, a = Y / 400 := ⟨_, rfl⟩
  obtain ⟨b, hb⟩ : ∃ b : Int, b = (Y - 400 * a) / 100 := ⟨_, rfl⟩
  obtain ⟨c, hc⟩ : ∃ c : Int, c = (Y - 400 * a - 100 * b) / 4 := ⟨_, rfl⟩
  obtain ⟨e, he⟩ : ∃ e : Int, e = Y - 400 * a - 100 * b - 4 * c := ⟨_, rfl⟩
  obtain ⟨doy, hdoy⟩ : ∃ doy : Int, doy = (153 * mp + 2) / 5 + d - 1 := ⟨_, rfl⟩
  have bb : 0 ≤ b ∧ b ≤ 3 := by omega
  have bc : 0 ≤ c ∧ c ≤ 24 := by omega
  have be : 0 ≤ e ∧ e ≤ 3 := by omega
  have hYe : Y = 400 * a + 100 * b + 4 * c + e := by omega
  have e4 : Y / 4 = 100 * a + 25 * b + c := by omega
  have e100 : Y / 100 = 4 * a + b := by omega
  have hdays : daysFromCivil y m d =
      146097 * a + 36524 * b + 1461 * c + 365 * e + doy - 719468 := by
    simp only [daysFromCivil, ← hY, ← hmp]
    omega
  have hleapY : isLeap y = true → m ≤ 2 → e = 3 ∧ (c ≠ 24 ∨ b = 3) := by
    intro hl hm2
    rw [isLeap_iff] at hl
    have hYy : Y = y - 1 := by rw [hY]; simp [hm2]
    obtain ⟨hl4, hl100 | hl400⟩ := hl
    · have he3 : e = 3 := by omega
      refine ⟨he3, ?_⟩
      by_cases hc24 : c = 24
      · right; omega
      · left; exact hc24
    · have he3 : e = 3 := by omega
      have hb3 : b = 3 := by omega
      exact ⟨he3, Or.inr hb3⟩
  have hmcases : m = 1 ∨ m = 2 ∨ m = 3 ∨ m = 4 ∨ m = 5 ∨ m = 6 ∨ m = 7 ∨ m = 8 ∨ m = 9 ∨
      m = 10 ∨ m = 11 ∨ m = 12 := by omega
  have hfacts : 0 ≤ doy ∧ doy ≤ 365 ∧ (doy = 365 → e = 3 ∧ (c ≠ 24 ∨ b = 3)) ∧
      (5 * doy + 2) / 153 = mp ∧ 0 ≤ mp ∧ mp ≤ 11 := by
    obtain ⟨hd1, hd2⟩ := hd
    rcases hmcases with h | h | h | h | h | h | h | h | h | h | h | h <;> subst h
    · norm_num [daysIn] at hd2 hmp
      subst hmp
      refine ⟨by omega, by omega, fun h => by omega, by omega, by omega, by omega⟩
    · have hmp2 : mp = 11 := by rw [hmp]; norm_num
      subst hmp2
      by_cases hl : isLeap y = true
      · have hd3 : d ≤ 29 := by simpa [daysIn, hl] using hd2
        refine ⟨by omega, by omega, fun _ => hleapY hl (by norm_num), by omega, by omega,
          by omega⟩
      · have hd3 : d ≤ 28 := by simpa [daysIn, hl] using hd2
        refine ⟨by omega, by omega, fun h => by omega, by omega, by omega, by omega⟩
    all_goals
      norm_num [daysIn] at hd2 hmp
      subst hmp
      refine ⟨by omega, by omega, fun h => by omega, by omega, by omega, by omega⟩
  obtain ⟨f1, f2, f3, f4, f5, f6⟩ := hfacts
  rw [hdays, civilFromDays_of_parts Y doy a b c e hYe bb bc be ⟨f1, f2⟩ f3, f4]
  by_cases hlt : mp < 10
  · have hm3 : m > 2 := by
      by_contra hcon
      have : mp = m + 9 := by rw [hmp]; simp [hcon]
      omega
    have hmp' : mp = m - 3 := by rw [hmp]; simp [hm3]
    have hYy : Y = y := by
      rw [hY]
      have : ¬ m ≤ 2 := by omega
      simp [this]
    have e1 : ¬ (mp + 3 ≤ 2) := by omega
    simp only [hlt, if_true, e1, if_false, Prod.mk.injEq]
    refine ⟨hYy, by omega, by omega⟩
  · have hm3 : m ≤ 2 := by
      by_contra hcon
      have hgt : m > 2 := by omega
      have : mp = m - 3 := by rw [hmp]; simp [hgt]
      omega
    have hmp' : mp = m + 9 := by
      rw [hmp]
      have : ¬ m > 2 := by omega
      simp [this]
    have hYy : Y = y - 1 := by rw [hY]; simp [hm3]
    have e1 : mp - 9 ≤ 2 := by omega
    simp only [hlt, if_false, e1, if_true, Prod.mk.injEq]
    refine ⟨by omega, by omega, by omega⟩

theorem digitChar_of_digit (c : Char) (n : Nat)
    (hn : (n % 10 : Nat) + 48 = c.toNat) : digitChar n = c := by
  unfold digitChar
  rw [show 48 + n % 10 = c.toNat by omega]
  exact Char.ofNat_toNat c

theorem timeFormat_timeParse (value : String) (t : Time) (h : timeParse value = some t) :
    timeFormat t = value := by
  unfold timeParse at h
  split at h
  · rename_i y1 y2 y3 y4 s1 m1 m2 s2 d1 d2 hdata
    split_ifs at h with hdig
    dsimp only at h
    split_ifs at h with hmonth hday
    simp only [Bool.and_eq_true, beq_iff_eq] at hdig
    obtain ⟨⟨⟨⟨⟨⟨⟨⟨⟨hy1, hy2⟩, hy3⟩, hy4⟩, hs1⟩, hm1⟩, hm2⟩, hs2⟩, hd1⟩, hd2⟩ := hdig
    subst hs1 hs2
    have b1 := digitValue_bounds y1 hy1
    have b2 := digitValue_bounds y2 hy2
    have b3 := digitValue_bounds y3 hy3
    have b4 := digitValue_bounds y4 hy4
    have b5 := digitValue_bounds m1 hm1
    have b6 := digitValue_bounds m2 hm2
    have b7 := digitValue_bounds d1 hd1
    have b8 := digitValue_bounds d2 hd2
    have hle := daysIn_le (10 * digitValue m1 + digitValue m2)
      (1000 * digitValue y1 + 100 * digitValue y2 + 10 * digitValue y3 + digitValue y4)
    simp only [Option.some.injEq] at h
    subst h
    have hdiv : ∀ z : Int, z * aDay / aDay = z := by
      intro z; rw [aDay_eq]; omega
    have hciv := civilFromDays_daysFromCivil
      (1000 * digitValue y1 + 100 * digitValue y2 + 10 * digitValue y3 + digitValue y4)
      (10 * digitValue m1 + digitValue m2) (10 * digitValue d1 + digitValue d2)
      (by omega) (by omega)
    have hval : value = String.mk [y1, y2, y3, y4, '-', m1, m2, '-', d1, d2] := by
      cases value
      simp only at hdata
      rw [hdata]
    simp only [timeFormat, hdiv, hciv]
    rw [appendInt_four _ (by omega) (by omega), appendInt_two _ (by omega) (by omega),
      appendInt_two _ (by omega) (by omega), hval]
    simp only [digitValue] at b1 b2 b3 b4 b5 b6 b7 b8 ⊢
    congr 1
    simp only [List.cons_append, List.nil_append, List.cons.injEq, and_true, true_and]
    refine ⟨?_, ?_, ?_, ?_, ?_, ?_, ?_, ?_⟩
    · exact digitChar_of_digit y1 _ (by omega)
    · exact digitChar_of_digit y2 _ (by omega)
    · exact digitChar_of_digit y3 _ (by omega)
    · exact digitChar_of_digit y4 _ (by omega)
    · exact digitChar_of_digit m1 _ (by omega)
    · exact digitChar_of_digit m2 _ (by omega)
    · exact digitChar_of_digit d1 _ (by omega)
    · exact digitChar_of_digit d2 _ (by omega)
  · simp at h

theorem mem_daysBetween (z0 z1 : Int) (t : Time) :
    t ∈ daysBetween (z0 * aDay) (z1 * aDay) ↔
      ∃ i : Nat, t = z0 * aDay + (i : Int) * aDay ∧ t ≤ z1 * aDay := by
  have hlen : ((z1 * aDay - z0 * aDay) / aDay + 1).toNat = (z1 - z0 + 1).toNat := by
    rw [aDay_eq]; omega
  simp only [daysBetween, hlen, List.mem_map, List.mem_range]
  constructor
  · rintro ⟨i, hi, rfl⟩
    refine ⟨i, rfl, ?_⟩
    show (z0 * aDay + (i : Int) * aDay : Int) ≤ z1 * aDay
    rw [aDay_eq]; omega
  · rintro ⟨i, rfl, hle⟩
    refine ⟨i, ?_, rfl⟩
    have hle' : (z0 * aDay + (i : Int) * aDay : Int) ≤ z1 * aDay := hle
    rw [aDay_eq] at hle'
    omega

theorem daysBetween_ascending (dateFrom dateTo : Time) :
    (daysBetween dateFrom dateTo).Pairwise (fun a b => a < b) := by
  unfold daysBetween
  refine List.Pairwise.map _ ?_ (List.pairwise_lt_range _)
  intro a b hab
  have key : ∀ (x : Int) (m n : Nat), m < n →
      x + (m : Int) * 86400000000000 < x + (n : Int) * 86400000000000 := by
    intro x m n h
    omega
  rw [aDay_eq]
  exact key dateFrom a b hab

theorem daysBetween_format_nodup (z0 z1 : Int) (h0 : -719528 ≤ z0) (h1 : z1 ≤ 2932896) :
    ((daysBetween (z0 * aDay) (z1 * aDay)).map timeFormat).Nodup := by
  have hnd : (daysBetween (z0 * aDay) (z1 * aDay)).Nodup :=
    (daysBetween_ascending _ _).imp (fun h => ne_of_lt h)
  refine List.Nodup.map_on ?_ hnd
  intro a ha b hb hab
  obtain ⟨i, rfl, hi⟩ := (mem_daysBetween z0 z1 a).mp ha
  obtain ⟨j, rfl, hj⟩ := (mem_daysBetween z0 z1 b).mp hb
  have hi' : (z0 * aDay + (i : Int) * aDay : Int) ≤ z1 * aDay := hi
  have hj' : (z0 * aDay + (j : Int) * aDay : Int) ≤ z1 * aDay := hj
  rw [aDay_eq] at hi' hj'
  have e1 : z0 * aDay + (i : Int) * aDay = (z0 + i) * aDay := by ring
  have e2 : z0 * aDay + (j : Int) * aDay = (z0 + j) * aDay := by ring
  rw [e1, e2] at hab ⊢
  have := timeFormat_inj (z0 + i) (z0 + j) (by omega) (by omega) (by omega) (by omega) hab
  rw [this]

/-- C1: for dates `dateFrom` and `dateTo` that `time.Parse` returned for the texts
`first` and `second`, and a `getPullRequests` that returns without error whenever it is
called, every run of the date loop of more passes than there are days from `dateFrom`
to `dateTo` ends without error, having called `getPullRequests` with the formatted dates
of the instants `dateFrom`, `dateFrom + aDay`, ... up to `dateTo`, in this ascending
order and each once (the formatted dates differ from one another, and those of
`dateFrom` and `dateTo` are `first` and `second`); when `dateTo` is before `dateFrom` no
call is made and no issue collected, and when they are equal exactly one call is made. -/
theorem date_loop_calls {σ : Type} (getPR : String → σ → Option (Fetched σ))
    (hok : ∀ q w, ∃ r, getPR q w = some r ∧ r.err = none) (first second : String)
    (dateFrom dateTo : Time) (hfrom : timeParse first = some dateFrom)
    (hto : timeParse second = some dateTo) (w : σ) (fuel : Nat)
    (hfuel : (daysBetween dateFrom dateTo).length < fuel) :
    ∃ c, dateLoop getPR fuel dateFrom dateTo w = some c ∧ c.err = none ∧
      c.calls = (daysBetween dateFrom dateTo).map timeFormat ∧
      c.calls.Nodup ∧
      (daysBetween dateFrom dateTo).Pairwise (fun a b => a < b) ∧
      (∀ t, t ∈ daysBetween dateFrom dateTo ↔
        ∃ i : Nat, t = dateFrom + (i : Int) * aDay ∧ t ≤ dateTo) ∧
      timeFormat dateFrom = first ∧ timeFormat dateTo = second ∧
      (dateTo < dateFrom → c.calls = [] ∧ c.pullRequests = []) ∧
      (dateFrom = dateTo → c.calls = [timeFormat dateFrom]) := by
  have hf1 := timeFormat_timeParse first dateFrom hfrom
  have hf2 := timeFormat_timeParse second dateTo hto
  obtain ⟨z0, rfl, h0, h0'⟩ := timeParse_bounds first dateFrom hfrom
  obtain ⟨z1, rfl, h1, h1'⟩ := timeParse_bounds second dateTo hto
  obtain ⟨c, hc, herr, hcalls, hnil⟩ := date_loop_run getPR hok z0 z1 h0 h1' w fuel hfuel
  have hlen : ((z1 * aDay - z0 * aDay) / aDay + 1).toNat = (z1 - z0 + 1).toNat := by
    rw [aDay_eq]; omega
  refine ⟨c, hc, herr, hcalls, ?_, daysBetween_ascending _ _, mem_daysBetween z0 z1, hf1, hf2,
    ?_, ?_⟩
  · rw [hcalls]; exact daysBetween_format_nodup z0 z1 h0 h1'
  · intro hlt
    have hlt' : (z1 * aDay : Int) < z0 * aDay := hlt
    rw [aDay_eq] at hlt'
    have hz : z1 < z0 := by omega
    refine ⟨?_, hnil hz⟩
    rw [hcalls]
    simp only [daysBetween, hlen]
    rw [show (z1 - z0 + 1).toNat = 0 by omega]
    rfl
  · intro heq
    have heq' : (z0 * aDay : Int) = z1 * aDay := heq
    rw [aDay_eq] at heq'
    have hz : z0 = z1 := by omega
    rw [hcalls]
    simp only [daysBetween, hlen]
    rw [show (z1 - z0 + 1).toNat = 1 by omega]
    simp [List.range_succ]

/-- The example of C1: for the range 2024-02-28..2024-03-01 the three days 2024-02-28,
2024-02-29 and 2024-03-01 are queried, in this order. -/
theorem date_loop_calls_witness :
    (∃ c, dateLoop (getPullRequests (pagedRemote onePage) 1 "acme" "") 4 (19781 * aDay)
        (19783 * aDay) 0 = some c ∧ c.err = none ∧
      c.calls = (daysBetween (19781 * aDay) (19783 * aDay)).map timeFormat ∧
      c.calls.Nodup ∧
      (daysBetween (19781 * aDay) (19783 * aDay)).Pairwise (fun a b => a < b) ∧
      (∀ t, t ∈ daysBetween (19781 * aDay) (19783 * aDay) ↔
        ∃ i : Nat, t = 19781 * aDay + (i : Int) * aDay ∧ t ≤ 19783 * aDay) ∧
      timeFormat (19781 * aDay) = "2024-02-28" ∧ timeFormat (19783 * aDay) = "2024-03-01" ∧
      (19783 * aDay < 19781 * aDay → c.calls = [] ∧ c.pullRequests = []) ∧
      (19781 * aDay = 19783 * aDay → c.calls = [timeFormat (19781 * aDay)])) ∧
    (dateLoop (getPullRequests (pagedRemote onePage) 1 "acme" "") 4 (19781 * aDay)
        (19783 * aDay) 0).map (fun c => (c.calls, c.err, c.pullRequests.length)) =
      some (["2024-02-28", "2024-02-29", "2024-03-01"], none, 3) :=
  ⟨date_loop_calls (getPullRequests (pagedRemote onePage) 1 "acme" "")
    (fun _ _ => ⟨_, rfl, rfl⟩) "2024-02-28" "2024-03-01" (19781 * aDay) (19783 * aDay)
    (by decide) (by decide) 0 4 (by decide), by decide⟩

/-! ## A date that is already processed -/

theorem loop_stuck {S R : Type} (body : S → Option (Step S R)) (s : S)
    (h : body s = some (Step.next s)) : ∀ n, loop body n s = none := by
  intro n
  induction n with
  | zero => rfl
  | succ n ih => rw [loop_next body n s s h]; exact ih

theorem dateLoopBody_revisit {σ : Type} (getPR : String → σ → Option (Fetched σ))
    (dateTo : Time) (l : DateLoop σ) (hafter : timeAfter l.dateFrom dateTo = false)
    (hseen : timeFormat l.dateFrom ∈ l.controlProcessedDate) :
    dateLoopBody getPR dateTo l = some (Step.next l) := by
  simp only [dateLoopBody, hafter, hseen, if_true, if_false, Bool.false_eq_true]

theorem passes_succ_inv {S R : Type} (body : S → Option (Step S R)) (k : Nat) (s u : S)
    (h : passes body (k + 1) s = some u) :
    ∃ t, passes body k s = some t ∧ body t = some (Step.next u) := by
  induction k generalizing s with
  | zero =>
    simp only [passes] at h
    cases hb : body s with
    | none => simp [hb] at h
    | some st =>
      cases st with
      | next v =>
        simp only [hb, Option.some.injEq] at h
        subst h
        exact ⟨s, rfl, hb⟩
      | done q => simp [hb] at h
  | succ k ih =>
    rw [passes] at h
    cases hb : body s with
    | none => simp [hb] at h
    | some st =>
      cases st with
      | next v =>
        simp only [hb] at h
        obtain ⟨t, ht, hbt⟩ := ih v h
        refine ⟨t, ?_, hbt⟩
        rw [passes]
        simp only [hb]
        exact ht
      | done q => simp [hb] at h

theorem date_reach {σ : Type} (getPR : String → σ → Option (Fetched σ)) (z0 z1 : Int)
    (h0 : -719528 ≤ z0) (h1 : z1 ≤ 2932896) (w : σ) :
    ∀ (k : Nat) (dl : DateLoop σ),
      passes (dateLoopBody getPR (z1 * aDay)) k (dateLoopStart w (z0 * aDay)) = some dl →
      dl.dateFrom = z0 * aDay + (k : Int) * aDay ∧
      dl.controlProcessedDate =
        (List.range k).map (fun (j : Nat) => timeFormat (z0 * aDay + (j : Int) * aDay)) ∧
      k ≤ (z1 - z0 + 1).toNat := by
  intro k
  induction k with
  | zero =>
    intro dl h
    simp only [passes, Option.some.injEq] at h
    subst h
    exact ⟨by simp [dateLoopStart], rfl, Nat.zero_le _⟩
  | succ k ih =>
    intro dl h
    obtain ⟨t, ht, hbt⟩ := passes_succ_inv _ k _ dl h
    obtain ⟨hd, hproc, hk⟩ := ih t ht
    by_cases hafter : timeAfter t.dateFrom (z1 * aDay) = true
    · simp [dateLoopBody, hafter] at hbt
    · have hafter' : timeAfter t.dateFrom (z1 * aDay) = false := by
        simpa using hafter
      have hle : z0 + (k : Int) ≤ z1 := by
        have := (timeAfter_false_iff _ _).mp hafter'
        rw [hd, aDay_eq] at this
        omega
      have hnew : timeFormat t.dateFrom ∉ t.controlProcessedDate := by
        rw [hproc, hd]
        intro hmem
        obtain ⟨j, hj, hjeq⟩ := List.mem_map.mp hmem
        have hj' : j < k := List.mem_range.mp hj
        have e1 : z0 * aDay + (j : Int) * aDay = (z0 + j) * aDay := by ring
        have e2 : z0 * aDay + (k : Int) * aDay = (z0 + k) * aDay := by ring
        rw [e1, e2] at hjeq
        have := timeFormat_inj (z0 + j) (z0 + k) (by omega) (by omega) (by omega) (by omega)
          hjeq
        omega
      simp only [dateLoopBody, hafter', hnew, if_false, Bool.false_eq_true] at hbt
      cases hcall : getPR (timeFormat t.dateFrom) t.world with
      | none => simp [hcall] at hbt
      | some r =>
        cases herr : r.err with
        | some e => simp [hcall, herr] at hbt
        | none =>
          simp only [hcall, herr, Option.some.injEq, Step.next.injEq] at hbt
          subst hbt
          refine ⟨?_, ?_, by omega⟩
          · simp only [timeAdd, hd]
            push_cast
            ring
          · simp only [setAdd, hnew, if_false]
            rw [hproc, hd, List.range_succ, List.map_append]
            rfl

/-- C10 as stated fails: in the state whose cursor is 2024-01-01, not after the end date
2024-01-01, and whose set of processed dates holds `2024-01-01`, one pass of the date
loop hands back the very same state, the cursor still at 2024-01-01 and no query made,
and no number of passes ends the loop. -/
theorem revisit_does_not_advance :
    timeAfter revisitState.dateFrom (19723 * aDay) = false ∧
    timeFormat revisitState.dateFrom ∈ revisitState.controlProcessedDate ∧
    dateLoopBody (getPullRequests scriptRemote 1 "acme" "") (19723 * aDay) revisitState =
      some (Step.next revisitState) ∧
    timeAdd revisitState.dateFrom aDay ≠ revisitState.dateFrom ∧
    ∀ fuel, loop (dateLoopBody (getPullRequests scriptRemote 1 "acme" "") (19723 * aDay)) fuel
      revisitState = none :=
  ⟨by decide, by decide,
    dateLoopBody_revisit _ _ revisitState (by decide) (by decide), by decide,
    loop_stuck _ revisitState (dateLoopBody_revisit _ _ revisitState (by decide) (by decide))⟩

/-- C10, amended: let the date loop run between two dates that `time.Parse` returned,
with a `getPullRequests` that returns without error. In every state that the loop
reaches from its start after some passes and whose cursor is not after the end date,
the formatted cursor is not in the set of processed dates; the next pass makes exactly
one call of `getPullRequests`, for the formatted cursor, puts it into the set and moves
the cursor on by one day; and every run of more passes than there are days ends. -/
theorem pass_queries_and_advances {σ : Type} (getPR : String → σ → Option (Fetched σ))
    (hok : ∀ q w, ∃ r, getPR q w = some r ∧ r.err = none) (first second : String)
    (dateFrom dateTo : Time) (hfrom : timeParse first = some dateFrom)
    (hto : timeParse second = some dateTo) (w : σ) (k : Nat) (dl : DateLoop σ)
    (hreach : passes (dateLoopBody getPR dateTo) k (dateLoopStart w dateFrom) = some dl)
    (hle : timeAfter dl.dateFrom dateTo = false) :
    timeFormat dl.dateFrom ∉ dl.controlProcessedDate ∧
    (∃ r, getPR (timeFormat dl.dateFrom) dl.world = some r ∧ r.err = none ∧
      dateLoopBody getPR dateTo dl =
        some (Step.next ⟨r.world, timeAdd dl.dateFrom aDay,
          dl.controlProcessedDate ++ [timeFormat dl.dateFrom],
          dl.pullRequests ++ r.pullRequests, dl.calls ++ [timeFormat dl.dateFrom],
          dl.events ++ r.events⟩)) ∧
    timeAdd dl.dateFrom aDay = dl.dateFrom + 86400000000000 ∧
    ∀ fuel, (daysBetween dateFrom dateTo).length < fuel →
      ∃ c, dateLoop getPR fuel dateFrom dateTo w = some c ∧ c.err = none := by
  obtain ⟨z0, rfl, h0, h0'⟩ := timeParse_bounds first dateFrom hfrom
  obtain ⟨z1, rfl, h1, h1'⟩ := timeParse_bounds second dateTo hto
  obtain ⟨hd, hproc, hk⟩ := date_reach getPR z0 z1 h0 h1' w k dl hreach
  have hlez : z0 + (k : Int) ≤ z1 := by
    have := (timeAfter_false_iff _ _).mp hle
    rw [hd, aDay_eq] at this
    omega
  have hnew : timeFormat dl.dateFrom ∉ dl.controlProcessedDate := by
    rw [hproc, hd]
    intro hmem
    obtain ⟨j, hj, hjeq⟩ := List.mem_map.mp hmem
    have hj' : j < k := List.mem_range.mp hj
    have e1 : z0 * aDay + (j : Int) * aDay = (z0 + j) * aDay := by ring
    have e2 : z0 * aDay + (k : Int) * aDay = (z0 + k) * aDay := by ring
    rw [e1, e2] at hjeq
    have := timeFormat_inj (z0 + j) (z0 + k) (by omega) (by omega) (by omega) (by omega) hjeq
    omega
  obtain ⟨r, hr, herr⟩ := hok (timeFormat dl.dateFrom) dl.world
  refine ⟨hnew, ⟨r, hr, herr, ?_⟩, ?_, ?_⟩
  · simp only [dateLoopBody, hle, hnew, hr, herr, if_false, Bool.false_eq_true, setAdd]
  · simp only [timeAdd, aDay_eq]
  · intro fuel hfuel
    obtain ⟨c, hc, hcerr, _⟩ := date_loop_run getPR hok z0 z1 h0 h1' w fuel hfuel
    exact ⟨c, hc, hcerr⟩

/-- The example of amended C10: for the range 2024-02-28..2024-03-01 the state reached
after one pass has the cursor 2024-02-29, which is not in the set; the next pass queries
2024-02-29 and moves the cursor to 2024-03-01. -/
theorem pass_queries_and_advances_witness :
    (timeFormat secondDayState.dateFrom ∉ secondDayState.controlProcessedDate ∧
    (∃ r, getPullRequests (pagedRemote onePage) 1 "acme" "" (timeFormat secondDayState.dateFrom)
        secondDayState.world = some r ∧ r.err = none ∧
      dateLoopBody (getPullRequests (pagedRemote onePage) 1 "acme" "") (19783 * aDay)
          secondDayState =
        some (Step.next ⟨r.world, timeAdd secondDayState.dateFrom aDay,
          secondDayState.controlProcessedDate ++ [timeFormat secondDayState.dateFrom],
          secondDayState.pullRequests ++ r.pullRequests,
          secondDayState.calls ++ [timeFormat secondDayState.dateFrom],
          secondDayState.events ++ r.events⟩)) ∧
    timeAdd secondDayState.dateFrom aDay = secondDayState.dateFrom + 86400000000000 ∧
    ∀ fuel, (daysBetween (19781 * aDay) (19783 * aDay)).length < fuel →
      ∃ c, dateLoop (getPullRequests (pagedRemote onePage) 1 "acme" "") fuel (19781 * aDay)
        (19783 * aDay) 0 = some c ∧ c.err = none) ∧
    timeFormat secondDayState.dateFrom = "2024-02-29" ∧
    timeFormat (timeAdd secondDayState.dateFrom aDay) = "2024-03-01" :=
  ⟨pass_queries_and_advances (getPullRequests (pagedRemote onePage) 1 "acme" "")
    (fun _ _ => ⟨_, rfl, rfl⟩) "2024-02-28" "2024-03-01" (19781 * aDay) (19783 * aDay)
    (by decide) (by decide) 0 1 secondDayState rfl (by decide), by decide, by decide⟩

/-! ## The date-range string -/

theorem retrieve_one_piece {σ : Type} (env : Remote σ) (fuel : Nat) (org user dateRange : String)
    (w : σ) (first : String) (dateFrom : Time) (hne : dateRange ≠ "")
    (hsplit : stringsSplit dateRange ".." = [first]) (hfrom : timeParse first = some dateFrom) :
    retrieve env fuel org user dateRange w = some Retrieved.panic := by
  simp only [retrieve, hne, ne_eq, not_false_eq_true, if_true, hsplit, List.getElem?_cons_zero,
    hfrom, List.getElem?_cons_succ, List.getElem?_nil]

theorem retrieve_two_pieces {σ : Type} (env : Remote σ) (fuel : Nat)
    (org user dateRange : String) (w : σ) (first second : String) (rest : List String)
    (dateFrom dateTo : Time) (hne : dateRange ≠ "")
    (hsplit : stringsSplit dateRange ".." = first :: second :: rest)
    (hfrom : timeParse first = some dateFrom) (hto : timeParse second = some dateTo) :
    retrieve env fuel org user dateRange w =
      (dateLoop (getPullRequests env fuel org user) fuel dateFrom dateTo w).map
        Retrieved.collected := by
  simp only [retrieve, hne, ne_eq, not_false_eq_true, if_true, hsplit, List.getElem?_cons_zero,
    hfrom, List.getElem?_cons_succ, hto]

/-- C8 fails on the code: for the date range `2024-01-01`, which has no `..`,
`pullsExecute` returns no error but panics on the missing second piece, in every world
and before any remote call; and for `2024-01-01..2024-01-02..x` it does just what it does
for `2024-01-01..2024-01-02`: against a remote with one page it makes the two queries
and ends with a report. -/
theorem malformed_range_not_rejected {σ : Type} (env : Remote σ)
    (userOrder repoOrder : List String → List String) (fuel : Nat) (org user : String)
    (includeReviews : Bool) (w : σ) :
    pullsExecute env userOrder repoOrder fuel org user "2024-01-01" includeReviews w =
      some ⟨Status.panicked, w, []⟩ ∧
    pullsExecute env userOrder repoOrder fuel org user "2024-01-01..2024-01-02..x"
        includeReviews w =
      pullsExecute env userOrder repoOrder fuel org user "2024-01-01..2024-01-02"
        includeReviews w ∧
    (pullsExecute (pagedRemote onePage) id id 3 "acme" "" "2024-01-01..2024-01-02..x" false
        0).map (fun r => (rankedUsers r.status, r.events)) =
      some (some ["alice"],
        [Event.searchIssues (searchQuery "acme" "" "2024-01-01") 1 100,
         Event.searchIssues (searchQuery "acme" "" "2024-01-02") 1 100]) := by
  refine ⟨?_, ?_, by decide⟩
  · have h := retrieve_one_piece env fuel org user "2024-01-01" w "2024-01-01" (19723 * aDay)
      (by decide) (by decide) (by decide)
    simp only [pullsExecute, h]
  · have h1 := retrieve_two_pieces env fuel org user "2024-01-01..2024-01-02..x" w
      "2024-01-01" "2024-01-02" ["x"] (19723 * aDay) (19724 * aDay)
      (by decide) (by decide) (by decide) (by decide)
    have h2 := retrieve_two_pieces env fuel org user "2024-01-01..2024-01-02" w
      "2024-01-01" "2024-01-02" [] (19723 * aDay) (19724 * aDay)
      (by decide) (by decide) (by decide) (by decide)
    simp only [pullsExecute, h1, h2]

end GithubRankings
